import Mathlib

/-!
# ContainerPulse — verification of the container update engine

Shallow embedding of the ContainerPulse sources:

* `containerpulse-updater.sh` — the bash updater script
  (`document_containers`, `is_locally_built_image`, `update_containers`,
  `send_email_notification`, main loop);
* `src/web/services/dockerService.js` — the web `DockerService`
  (`getInventoryContainers`, `checkImageUpdateStatus`, `updateContainer`,
  `hasAutoUpdateLabel`, `checkForUpdates`);
* `src/web/services/webhookService.js` — `authenticateWebhook`,
  `verifySignature`;
* `src/web/server.js` — the `/webhook/:containerName` and
  `/api/containers/:name/update` routes.

The bash updater synthesizes a `docker create` command by string
concatenation and executes it through `eval`.  To reason about what the
created container actually receives, we model both sides faithfully:

* the jq pipelines that render container data to text, the shell's
  whitespace word-splitting of unquoted expansions (`for x in $var`), and
  the string concatenation building `create_command`;
* the shell tokenizer that `eval` applies to the finished string
  (single quotes, double quotes, backslash escapes, whitespace).

All definitions are executable; theorems about concrete containers are
settled by evaluation.
-/

namespace ContainerPulse

/-! ## Characters and words

Quotation characters are written via their code points so that character
literals stay unambiguous. -/

def sqChar : Char := Char.ofNat 39   -- single quote
def dqChar : Char := Char.ofNat 34   -- double quote
def bsChar : Char := Char.ofNat 92   -- backslash

/-- Default IFS whitespace: space, tab, newline. -/
def wsChar (c : Char) : Bool :=
  c = ' ' || c = '\t' || c = '\n'

/-- Split a character list into maximal whitespace-free words
(the shell's field splitting of an unquoted expansion). -/
def wordsGo (cur : List Char) : List Char → List String
  | [] => if cur.isEmpty then [] else [String.mk cur]
  | c :: rest =>
    if wsChar c then
      if cur.isEmpty then wordsGo [] rest
      else String.mk cur :: wordsGo [] rest
    else wordsGo (cur ++ [c]) rest

def wordSplit (s : String) : List String := wordsGo [] s.data

/-- Join lines with newlines, as a `$(...)` command substitution captures a
multi-line jq output (the trailing newline is stripped by the shell). -/
def joinNL : List String → String
  | [] => ""
  | [x] => x
  | x :: xs => x ++ "\n" ++ joinNL xs

/-- `for x in $(jq ... )`: the lines of the jq output, field-split by the
shell.  Agrees with the line list only when each line is nonempty and free
of whitespace. -/
def splitLines (xs : List String) : List String := wordSplit (joinNL xs)

/-- `sed 's/^\///'` and the JS `name.replace(/^\//, '')`: strip one leading
slash. -/
def stripLeadingSlash (s : String) : String :=
  match s.data with
  | c :: rest => if c = '/' then String.mk rest else s
  | [] => s

/-- jq's `@sh` body: each single quote becomes `'\''`. -/
def shQuoteCore : List Char → List Char
  | [] => []
  | c :: cs =>
    (if c = sqChar then [sqChar, bsChar, sqChar, sqChar] else [c]) ++ shQuoteCore cs

/-- jq's `@sh` on a string: wrap in single quotes, escaping embedded
single quotes. -/
def shQuote (s : String) : String :=
  String.mk (sqChar :: shQuoteCore s.data ++ [sqChar])

/-- Decimal digits of a natural number, most significant first (the
rendering jq uses for numbers). -/
def natDigits (n : Nat) : List Char :=
  if h : n < 10 then [Char.ofNat (48 + n)]
  else
    have : n / 10 < n := Nat.div_lt_self (by omega) (by omega)
    natDigits (n / 10) ++ [Char.ofNat (48 + n % 10)]

def natToStr (n : Nat) : String := String.mk (natDigits n)

/-! ## The shell tokenizer applied by `eval`

`eval "$create_command"` re-parses the accumulated string into words.
We model the quoting-and-splitting part of that parse as a character
automaton: unquoted whitespace separates tokens; single quotes protect
everything up to the next single quote; double quotes protect everything
except `\"` and `\\`; an unquoted backslash escapes the next character.
The expansions `eval` performs besides quote removal and word splitting
(parameter, command, pathname, tilde and brace expansion, redirection,
control operators) are not modeled; every theorem stated over this
tokenizer therefore restricts the input, through `plainOK`/`cleanStr`,
to characters on which those expansions cannot fire, where the parse is
exactly quoting and splitting. -/

inductive QMode | norm | normEsc | single | double | doubleEsc
deriving DecidableEq, Repr

structure TokSt where
  mode : QMode
  started : Bool
  cur : List Char
  acc : List String
deriving DecidableEq, Repr

def tokStep (st : TokSt) (c : Char) : TokSt :=
  match st.mode with
  | .norm =>
    if c = sqChar then { st with mode := .single, started := true }
    else if c = dqChar then { st with mode := .double, started := true }
    else if c = bsChar then { st with mode := .normEsc, started := true }
    else if wsChar c then
      { mode := .norm, started := false, cur := [],
        acc := st.acc ++ if st.started then [String.mk st.cur] else [] }
    else { st with started := true, cur := st.cur ++ [c] }
  | .normEsc => { st with mode := .norm, started := true, cur := st.cur ++ [c] }
  | .single =>
    if c = sqChar then { st with mode := .norm }
    else { st with cur := st.cur ++ [c] }
  | .double =>
    if c = dqChar then { st with mode := .norm }
    else if c = bsChar then { st with mode := .doubleEsc }
    else { st with cur := st.cur ++ [c] }
  | .doubleEsc =>
    if c = dqChar || c = bsChar then { st with mode := .double, cur := st.cur ++ [c] }
    else { st with mode := .double, cur := st.cur ++ [bsChar, c] }

def tokFinish (st : TokSt) : List String :=
  st.acc ++ if st.started then [String.mk st.cur] else []

def tokInit : TokSt := ⟨.norm, false, [], []⟩

def stApply (st : TokSt) (s : String) : TokSt := s.data.foldl tokStep st

def shellTokenize (s : String) : List String := tokFinish (stApply tokInit s)

/-! ## Data model

`ContainerRecord` mirrors one entry of the inventory file written by
`document_containers` (updater script, lines 189–214): the jq-rendered
inspection data of one container. -/

structure RestartPolicy where
  name : String            -- jq -r '.restartPolicy.Name' ("null" when absent)
  maximumRetryCount : Nat
deriving DecidableEq, Repr

structure Mount where
  source : String
  destination : String
  mode : String
deriving DecidableEq, Repr

structure LogConfig where
  type : String                       -- jq -r '.hostConfig.logConfig.Type'
  config : List (String × String)     -- log options, key → value
deriving DecidableEq, Repr

structure HostCfg where
  privileged : Bool
  capAdd : List String
  capDrop : List String
  dns : List String
  dnsSearch : List String
  extraHosts : List String
  logConfig : LogConfig
deriving DecidableEq, Repr

structure ContainerRecord where
  id : String
  name : String                       -- docker's `.Name`, with leading slash
  image : String                      -- configured image reference
  imageId : String                    -- resolved image id at inventory time
  command : List String               -- `.Config.Cmd`
  entrypoint : List String            -- `.Config.Entrypoint`
  labels : List (String × String)
  env : List String                   -- `.Config.Env` entries (KEY=VALUE)
  ports : List (String × Option (List (String × String)))
    -- `.NetworkSettings.Ports`: "port/proto" → none (exposed, unbound)
    -- or a list of (HostIp, HostPort) bindings
  mounts : List Mount
  network : List (String × Option String)   -- network name → IPAddress
  restartPolicy : RestartPolicy
  hostConfig : HostCfg
deriving DecidableEq, Repr

/-- First-match association lookup (jq's `.labels["k"]`, JS `labels[k]`). -/
def lookupKey (kvs : List (String × String)) (k : String) : Option String :=
  (kvs.find? (fun kv => kv.1 = k)).map (·.2)

/-! ## Image provenance classifiers -/

def noSlash (l : List Char) : Bool := l.all (fun c => c ≠ '/')

/-- The bash regex `^[^/]*[_-][^/]*$` (updater script, line 231):
scan for a `_` or `-` whose suffix is slash-free, aborting on any slash. -/
def matchComposePat : List Char → Bool
  | [] => false
  | c :: rest =>
    if c = '/' then false
    else if (c = '_' || c = '-') && noSlash rest then true
    else matchComposePat rest

/-- `is_locally_built_image` (updater script, lines 227–243).  The second
test (`! [./]` together with `[_-]`) mirrors lines 238–240. -/
def is_locally_built_image (image_name : String) : Bool :=
  if matchComposePat image_name.data then true
  else if image_name.data.all (fun c => c ≠ '.' && c ≠ '/')
          && image_name.data.any (fun c => c = '_' || c = '-') then true
  else false

/-- The inline heuristic of `DockerService.checkForUpdates`
(dockerService.js line 267):
`currentImage.includes('_') || currentImage.includes('-') && !currentImage.includes('/')`
— JS `&&` binds tighter than `||`. -/
def js_checkForUpdates_isLocallyBuilt (currentImage : String) : Bool :=
  currentImage.data.contains '_'
    || (currentImage.data.contains '-' && !currentImage.data.contains '/')

/-- The provenance rule as the specification words it: no `/` separator,
but at least one `_` or `-`. -/
def specLocallyBuiltRule (s : String) : Bool :=
  !s.data.contains '/' && (s.data.contains '_' || s.data.contains '-')

/-! ## Eligibility label checks -/

/-- The four recognized auto-update label strings, in the order of the
`case` statement of `document_containers` (updater script, line 156). -/
def recognizedLabelWords : List String :=
  ["auto-update=true", "com.your.auto-update=true",
   "com.github.containrrr.watchtower.enable=true",
   "com.centurylinklabs.watchtower.enable=true"]

/-- `document_containers` label test (updater script, lines 152–160):
render every label as `key=value` (one jq line each), field-split the
result, and look for one of the four recognized words. -/
def documentLabelCheck (labels : List (String × String)) : Bool :=
  (splitLines (labels.map (fun kv => kv.1 ++ "=" ++ kv.2))).any
    (fun label => recognizedLabelWords.contains label)

/-- Carrying a recognized auto-update label with string value `"true"`,
as the jq selection of `update_containers` (updater script, lines 256–262)
evaluates it by exact lookup. -/
def hasAutoUpdateLabelExact (labels : List (String × String)) : Bool :=
  lookupKey labels "com.your.auto-update" = some "true"
    || lookupKey labels "auto-update" = some "true"
    || lookupKey labels "com.github.containrrr.watchtower.enable" = some "true"
    || lookupKey labels "com.centurylinklabs.watchtower.enable" = some "true"

/-- `DockerService.hasAutoUpdateLabel` (dockerService.js lines 213–224). -/
def js_hasAutoUpdateLabel (labels : List (String × String)) : Bool :=
  ["auto-update", "com.your.auto-update",
   "com.github.containrrr.watchtower.enable",
   "com.centurylinklabs.watchtower.enable"].any
    (fun label => lookupKey labels label = some "true")

/-- A running container as seen by `document_containers`: its id and its
inspected label set (only the fields the builder's filter reads). -/
structure LiveContainer where
  id : String
  labels : List (String × String)
deriving DecidableEq, Repr

/-- `document_containers` (updater script, lines 130–224): iterate the
running containers, skip the updater's own container (id from the
process's cgroup), skip containers whose label rendering does not produce
a recognized auto-update word, and write the remaining records wholesale
as the new inventory. -/
def document_containers (running : List LiveContainer) (selfId : String) :
    List LiveContainer :=
  running.filter (fun c => c.id ≠ selfId && documentLabelCheck c.labels)

/-! ## Synthesis of the `docker create` command

`update_containers` (updater script, lines 336–457) builds one string,
`create_command`, by appending jq-rendered, shell-word-split fragments,
then runs it through `eval`.  Each section below is one block of that
code, in source order. -/

/-- Right-nested concatenation of string fragments (the net effect of the
script's repeated `create_command="$create_command ..."`). -/
def strConcat : List String → String
  | [] => ""
  | s :: l => s ++ strConcat l

/-- The literal `\"...\"` quoting the script puts around a value. -/
def quoteD (s : String) : String := String.mk (dqChar :: s.data ++ [dqChar])

/-- Characters before the first `/`. -/
def takeUntilSlash : List Char → List Char
  | [] => []
  | c :: rest => if c = '/' then [] else c :: takeUntilSlash rest

/-- Characters after the first `/` (everything dropped when there is
none). -/
def dropPastSlash : List Char → List Char
  | [] => []
  | c :: rest => if c = '/' then rest else dropPastSlash rest

/-- `cut -d'/' -f1`: text before the first `/` (the whole line when no
`/` occurs). -/
def cutFieldOne (s : String) : String := String.mk (takeUntilSlash s.data)

/-- `cut -d'/' -f2`: the second `/`-field, or the whole line when the
delimiter is absent (cut's behaviour for delimiter-free lines). -/
def cutFieldTwo (s : String) : String :=
  if s.data.contains '/' then String.mk (takeUntilSlash (dropPastSlash s.data))
  else s

/-- First-match lookup in the jq-modelled network object
(`.network[$net].IPAddress` reads both levels at once). -/
def lookupNet (kvs : List (String × Option String)) (k : String) :
    Option (Option String) :=
  (kvs.find? (fun kv => kv.1 = k)).map (·.2)

/-- First-match lookup in the jq-modelled ports object (`.ports[$port]`). -/
def lookupPort (kvs : List (String × Option (List (String × String))))
    (k : String) : Option (Option (List (String × String))) :=
  (kvs.find? (fun kv => kv.1 = k)).map (·.2)

/-- Network settings (lines 342–355): one `--network=\"...\"` per
word of the jq key list, skipping the default bridge when the container
is attached to more than one network (`wc -l` counts the key lines), and
re-applying a recorded non-empty static IP. -/
def networkSectionStr (r : ContainerRecord) : String :=
  strConcat ((splitLines (r.network.map (·.1))).map (fun network =>
    if network = "bridge" && r.network.length > 1 then ""
    else " --network=" ++ quoteD network ++
      match lookupNet r.network network with
      | some (some ip) => if ip ≠ "" then " --ip=" ++ quoteD ip else ""
      | _ => ""))

/-- The binding lines jq renders for one port key
(`.ports[$port] | if . == null then [] else . end | .[] |
"\(.HostIp):\(.HostPort)"`). -/
def portBindingLines (ports : List (String × Option (List (String × String))))
    (port : String) : List String :=
  match lookupPort ports port with
  | some (some bs) => bs.map (fun b => b.1 ++ ":" ++ b.2)
  | _ => []

/-- Port mappings (lines 357–372). -/
def portSectionStr (r : ContainerRecord) : String :=
  strConcat ((splitLines (r.ports.map (·.1))).map (fun port =>
    if port ≠ "null" then
      strConcat ((splitLines (portBindingLines r.ports port)).map (fun binding =>
        let container_port := cutFieldOne port
        let protocol := cutFieldTwo port
        if binding = ":" then " -p " ++ container_port ++ "/" ++ protocol
        else " -p " ++ binding ++ ":" ++ container_port ++ "/" ++ protocol))
    else ""))

/-- Volume mounts (lines 374–378): `-v \"source:destination:mode\"`. -/
def volumeSectionStr (r : ContainerRecord) : String :=
  strConcat ((splitLines (r.mounts.map
      (fun m => m.source ++ ":" ++ m.destination ++ ":" ++ m.mode))).map
    (fun volume => " -v " ++ quoteD volume))

/-- Environment variables (lines 380–384): jq `@sh`-quoted entries,
field-split, each appended unquoted after `-e`. -/
def envSectionStr (r : ContainerRecord) : String :=
  strConcat ((splitLines (r.env.map shQuote)).map (fun env_var => " -e " ++ env_var))

/-- Labels (lines 386–390): `key=value` lines, field-split, each wrapped
as `--label \"...\"`. -/
def labelSectionStr (r : ContainerRecord) : String :=
  strConcat ((splitLines (r.labels.map (fun kv => kv.1 ++ "=" ++ kv.2))).map
    (fun label => " --label " ++ quoteD label))

/-- Restart policy (lines 392–401). -/
def restartSectionStr (r : ContainerRecord) : String :=
  if r.restartPolicy.name ≠ "null" && r.restartPolicy.name ≠ "no" then
    if r.restartPolicy.maximumRetryCount ≠ 0 && r.restartPolicy.name = "on-failure"
    then " --restart=" ++
      quoteD (r.restartPolicy.name ++ ":" ++ natToStr r.restartPolicy.maximumRetryCount)
    else " --restart=" ++ quoteD r.restartPolicy.name
  else ""

/-- Advanced host configuration (lines 403–446): privileged flag,
capabilities, DNS, extra hosts, and a non-default log driver with its
options. -/
def hostSectionStr (r : ContainerRecord) : String :=
  (if r.hostConfig.privileged then " --privileged" else "")
  ++ strConcat ((splitLines r.hostConfig.capAdd).map
      (fun cap => " --cap-add=" ++ quoteD cap))
  ++ strConcat ((splitLines r.hostConfig.capDrop).map
      (fun cap => " --cap-drop=" ++ quoteD cap))
  ++ strConcat ((splitLines r.hostConfig.dns).map
      (fun dns => " --dns=" ++ quoteD dns))
  ++ strConcat ((splitLines r.hostConfig.dnsSearch).map
      (fun dns => " --dns-search=" ++ quoteD dns))
  ++ strConcat ((splitLines r.hostConfig.extraHosts).map
      (fun host => " --add-host=" ++ quoteD host))
  ++ (if r.hostConfig.logConfig.type ≠ "null"
        && r.hostConfig.logConfig.type ≠ "json-file" then
        " --log-driver=" ++ quoteD r.hostConfig.logConfig.type
        ++ strConcat ((splitLines (r.hostConfig.logConfig.config.map
              (fun kv => kv.1 ++ "=" ++ kv.2))).map
            (fun opt => " --log-opt=" ++ quoteD opt))
      else "")

/-- Trailing command words (lines 451–457): the recorded `.command`
entries, field-split, appended unquoted.  Note the script never appends
an `--entrypoint` option: the recorded entrypoint is not consulted. -/
def cmdSectionStr (r : ContainerRecord) : String :=
  strConcat ((splitLines r.command).map (fun arg => " " ++ arg))

/-- The full `create_command` string built for `container_name` from its
inventory record (updater script, lines 336–457): basic settings,
networks, ports, volumes, environment, labels, restart policy, host
extras, the image reference, then the command override. -/
def buildCreateCommand (container_name : String) (r : ContainerRecord) : String :=
  "docker create"
  ++ " --name " ++ quoteD container_name
  ++ networkSectionStr r
  ++ portSectionStr r
  ++ volumeSectionStr r
  ++ envSectionStr r
  ++ labelSectionStr r
  ++ restartSectionStr r
  ++ hostSectionStr r
  ++ " " ++ quoteD r.image
  ++ cmdSectionStr r

/-! ## Token-level view of the synthesized command

`eval` re-parses `create_command` into argument words.  To relate the
string to the argument vector the container engine receives, each
space-separated argument of the command is described as an *atom*: a
concatenation of plain, single-quoted and double-quoted segments.  The
render of an atom is its textual form inside the command string; its
content is the argument word `eval` extracts from it. -/

inductive Seg
  | plain (s : String)
  | squote (s : String)
  | dquote (s : String)
deriving DecidableEq, Repr

def Seg.render : Seg → String
  | .plain s => s
  | .squote s => String.mk (sqChar :: s.data ++ [sqChar])
  | .dquote s => String.mk (dqChar :: s.data ++ [dqChar])

def Seg.content : Seg → String
  | .plain s => s
  | .squote s => s
  | .dquote s => s

def atomRender : List Seg → String
  | [] => ""
  | [g] => g.render
  | g :: a => g.render ++ atomRender a

def atomContent : List Seg → String
  | [] => ""
  | [g] => g.content
  | g :: a => g.content ++ atomContent a

/-- Render a unit list: every argument atom preceded by one space. -/
def unitsRender : List (List Seg) → String
  | [] => ""
  | a :: units => (" " ++ atomRender a) ++ unitsRender units

/-- The argument atoms the synthesis produces after `docker create`,
mirroring `buildCreateCommand` section by section (this is the shape the
sections take once every jq-rendered line survives field splitting as a
single word). -/
def createUnits (container_name : String) (r : ContainerRecord) : List (List Seg) :=
  [[.plain "--name"], [.dquote container_name]]
  ++ r.network.flatMap (fun nw =>
      if nw.1 = "bridge" && r.network.length > 1 then []
      else [[.plain "--network=", .dquote nw.1]]
        ++ match nw.2 with
           | some ip => if ip ≠ "" then [[.plain "--ip=", .dquote ip]] else []
           | none => [])
  ++ r.ports.flatMap (fun p =>
      if p.1 ≠ "null" then
        (match p.2 with | some bs => bs | none => []).flatMap (fun b =>
          let binding := b.1 ++ ":" ++ b.2
          if binding = ":" then
            [[.plain "-p"], [.plain (cutFieldOne p.1 ++ "/" ++ cutFieldTwo p.1)]]
          else
            [[.plain "-p"],
             [.plain (binding ++ ":" ++ cutFieldOne p.1 ++ "/" ++ cutFieldTwo p.1)]])
      else [])
  ++ r.mounts.flatMap (fun m =>
      [[.plain "-v"], [.dquote (m.source ++ ":" ++ m.destination ++ ":" ++ m.mode)]])
  ++ r.env.flatMap (fun e => [[.plain "-e"], [.squote e]])
  ++ r.labels.flatMap (fun kv =>
      [[.plain "--label"], [.dquote (kv.1 ++ "=" ++ kv.2)]])
  ++ (if r.restartPolicy.name ≠ "null" && r.restartPolicy.name ≠ "no" then
        if r.restartPolicy.maximumRetryCount ≠ 0
            && r.restartPolicy.name = "on-failure" then
          [[.plain "--restart=",
            .dquote (r.restartPolicy.name ++ ":"
              ++ natToStr r.restartPolicy.maximumRetryCount)]]
        else [[.plain "--restart=", .dquote r.restartPolicy.name]]
      else [])
  ++ (if r.hostConfig.privileged then [[.plain "--privileged"]] else [])
  ++ r.hostConfig.capAdd.map (fun cap => [.plain "--cap-add=", .dquote cap])
  ++ r.hostConfig.capDrop.map (fun cap => [.plain "--cap-drop=", .dquote cap])
  ++ r.hostConfig.dns.map (fun dns => [.plain "--dns=", .dquote dns])
  ++ r.hostConfig.dnsSearch.map (fun dns => [.plain "--dns-search=", .dquote dns])
  ++ r.hostConfig.extraHosts.map (fun host => [.plain "--add-host=", .dquote host])
  ++ (if r.hostConfig.logConfig.type ≠ "null"
        && r.hostConfig.logConfig.type ≠ "json-file" then
        [[.plain "--log-driver=", .dquote r.hostConfig.logConfig.type]]
        ++ r.hostConfig.logConfig.config.map
            (fun kv => [.plain "--log-opt=", .dquote (kv.1 ++ "=" ++ kv.2)])
      else [])
  ++ [[.dquote r.image]]
  ++ r.command.map (fun arg => [.plain arg])

/-- The argument vector the container engine receives from the
synthesized command, on the intended path. -/
def createTokens (container_name : String) (r : ContainerRecord) : List String :=
  ["docker", "create"] ++ (createUnits container_name r).map atomContent

/-! ## String and word-splitting lemmas -/

theorem sdata_append (a b : String) : (a ++ b).data = a.data ++ b.data := rfl

theorem str_ext {a b : String} (h : a.data = b.data) : a = b := by
  cases a; cases b; exact congrArg String.mk h

@[simp] theorem sapp_nil (s : String) : s ++ "" = s :=
  str_ext (by simp [sdata_append])

theorem sapp_assoc (a b c : String) : a ++ b ++ c = a ++ (b ++ c) :=
  str_ext (by simp [sdata_append])

/-- A whitespace-free prefix is absorbed into the current word. -/
theorem wordsGo_noWS (w : List Char) (h : ∀ c ∈ w, wsChar c = false) :
    ∀ cur rest, wordsGo cur (w ++ rest) = wordsGo (cur ++ w) rest := by
  induction w with
  | nil => intro cur rest; simp
  | cons c cs ih =>
    intro cur rest
    have hc : wsChar c = false := h c (by simp)
    have hcs : ∀ x ∈ cs, wsChar x = false := fun x hx => h x (by simp [hx])
    rw [List.cons_append]
    have h1 : wordsGo cur (c :: (cs ++ rest)) = wordsGo (cur ++ [c]) (cs ++ rest) := by
      rw [wordsGo, hc]
      simp
    rw [h1, ih hcs (cur ++ [c]) rest]
    congr 1
    simp

/-- Field-splitting a list of nonempty whitespace-free lines returns
exactly those lines. -/
theorem splitLines_eq (xs : List String)
    (h : ∀ x ∈ xs, x.data ≠ [] ∧ ∀ c ∈ x.data, wsChar c = false) :
    splitLines xs = xs := by
  induction xs with
  | nil => rfl
  | cons x xs ih =>
    obtain ⟨hne, hws⟩ := h x (by simp)
    have hxs : ∀ y ∈ xs, y.data ≠ [] ∧ ∀ c ∈ y.data, wsChar c = false :=
      fun y hy => h y (by simp [hy])
    have hxe : x.data.isEmpty = false := by
      cases hx : x.data with
      | nil => exact absurd hx hne
      | cons a l => rfl
    cases xs with
    | nil =>
      show wordsGo [] x.data = [x]
      have hw := wordsGo_noWS x.data hws [] []
      rw [List.append_nil] at hw
      rw [hw]
      show (if x.data.isEmpty then [] else [String.mk x.data]) = [x]
      rw [hxe]
      rfl
    | cons y ys =>
      have hjd : (joinNL (x :: y :: ys)).data
          = x.data ++ ('\n' :: (joinNL (y :: ys)).data) := by
        show (x ++ "\n" ++ joinNL (y :: ys)).data = _
        rw [sapp_assoc, sdata_append]
        rfl
      show wordsGo [] (joinNL (x :: y :: ys)).data = x :: y :: ys
      rw [hjd, wordsGo_noWS x.data hws [] _, List.nil_append]
      have h1 : wordsGo x.data ('\n' :: (joinNL (y :: ys)).data)
          = String.mk x.data :: wordsGo [] (joinNL (y :: ys)).data := by
        rw [wordsGo, show wsChar '\n' = true from rfl, hxe, if_pos rfl,
          if_neg (by simp)]
      rw [h1, show wordsGo [] (joinNL (y :: ys)).data = y :: ys from ih hxs]

/-! ## Tokenizer lemmas

Characters that survive the whole pipeline as themselves: not IFS
whitespace, not a quote, not a backslash, and not a character on which
`eval` performs an expansion the tokenizer does not model. -/

/-- Characters that can trigger processing by `eval` beyond quoting and
word splitting: parameter and command expansion (`$`, backtick, also
inside double quotes), pathname expansion, tilde and brace expansion,
redirection, control operators, and comments. -/
def evalExpansionChar (c : Char) : Bool :=
  c = '$' || c = Char.ofNat 96 || c = '*' || c = '?' || c = '[' || c = ']'
    || c = '~' || c = Char.ofNat 123 || c = Char.ofNat 125
    || c = '(' || c = ')' || c = '<' || c = '>'
    || c = '|' || c = ';' || c = '&' || c = '!' || c = '#'

def plainOK (c : Char) : Bool :=
  !wsChar c && c ≠ sqChar && c ≠ dqChar && c ≠ bsChar
    && !evalExpansionChar c

theorem stApply_append (st : TokSt) (a b : String) :
    stApply st (a ++ b) = stApply (stApply st a) b := by
  show (a ++ b).data.foldl tokStep st = _
  rw [sdata_append, List.foldl_append]
  rfl

theorem fold_plain (l : List Char) (h : ∀ c ∈ l, plainOK c = true) :
    ∀ b cur acc, List.foldl tokStep ⟨.norm, b, cur, acc⟩ l
      = ⟨.norm, b || !l.isEmpty, cur ++ l, acc⟩ := by
  induction l with
  | nil => intro b cur acc; simp
  | cons c cs ih =>
    intro b cur acc
    have hc := h c (by simp)
    simp only [plainOK, Bool.and_eq_true, Bool.not_eq_true', decide_eq_true_eq] at hc
    obtain ⟨⟨⟨⟨hws, hsq⟩, hdq⟩, hbs⟩, -⟩ := hc
    show List.foldl tokStep (tokStep ⟨.norm, b, cur, acc⟩ c) cs = _
    have hstep : tokStep ⟨.norm, b, cur, acc⟩ c
        = ⟨.norm, true, cur ++ [c], acc⟩ := by
      simp [tokStep, hws, hsq, hdq, hbs]
    rw [hstep, ih (fun x hx => h x (by simp [hx]))]
    simp

theorem fold_single_body (l : List Char) (h : ∀ c ∈ l, c ≠ sqChar) :
    ∀ b cur acc, List.foldl tokStep ⟨.single, b, cur, acc⟩ l
      = ⟨.single, b, cur ++ l, acc⟩ := by
  induction l with
  | nil => intro b cur acc; simp
  | cons c cs ih =>
    intro b cur acc
    have hc := h c (by simp)
    show List.foldl tokStep (tokStep ⟨.single, b, cur, acc⟩ c) cs = _
    have hstep : tokStep ⟨.single, b, cur, acc⟩ c
        = ⟨.single, b, cur ++ [c], acc⟩ := by
      simp [tokStep, hc]
    rw [hstep, ih (fun x hx => h x (by simp [hx]))]
    simp

theorem fold_double_body (l : List Char)
    (h : ∀ c ∈ l, c ≠ dqChar ∧ c ≠ bsChar) :
    ∀ b cur acc, List.foldl tokStep ⟨.double, b, cur, acc⟩ l
      = ⟨.double, b, cur ++ l, acc⟩ := by
  induction l with
  | nil => intro b cur acc; simp
  | cons c cs ih =>
    intro b cur acc
    obtain ⟨hdq, hbs⟩ := h c (by simp)
    show List.foldl tokStep (tokStep ⟨.double, b, cur, acc⟩ c) cs = _
    have hstep : tokStep ⟨.double, b, cur, acc⟩ c
        = ⟨.double, b, cur ++ [c], acc⟩ := by
      simp [tokStep, hdq, hbs]
    rw [hstep, ih (fun x hx => h x (by simp [hx]))]
    simp

/-- Well-formedness of one segment for the clean-input round trip. -/
def SegOK : Seg → Prop
  | .plain s => ∀ c ∈ s.data, plainOK c = true
  | .squote s => ∀ c ∈ s.data, c ≠ sqChar
  | .dquote s => ∀ c ∈ s.data, c ≠ dqChar ∧ c ≠ bsChar

/-- Whether a segment forces the token to exist (possibly empty). -/
def segStarts : Seg → Bool
  | .plain s => !s.data.isEmpty
  | .squote _ => true
  | .dquote _ => true

theorem fold_seg (g : Seg) (hOK : SegOK g) :
    ∀ b cur acc, List.foldl tokStep ⟨.norm, b, cur, acc⟩ (Seg.render g).data
      = ⟨.norm, b || segStarts g, cur ++ (Seg.content g).data, acc⟩ := by
  intro b cur acc
  cases g with
  | plain s =>
    exact fold_plain s.data hOK b cur acc
  | squote s =>
    show List.foldl tokStep _ (sqChar :: s.data ++ [sqChar]) = _
    show List.foldl tokStep (tokStep ⟨.norm, b, cur, acc⟩ sqChar) (s.data ++ [sqChar]) = _
    have hstep : tokStep ⟨.norm, b, cur, acc⟩ sqChar
        = ⟨.single, true, cur, acc⟩ := by simp [tokStep]
    rw [hstep, List.foldl_append, fold_single_body s.data hOK]
    show tokStep ⟨.single, true, cur ++ s.data, acc⟩ sqChar = _
    simp [tokStep, segStarts, Seg.content]
  | dquote s =>
    show List.foldl tokStep _ (dqChar :: s.data ++ [dqChar]) = _
    show List.foldl tokStep (tokStep ⟨.norm, b, cur, acc⟩ dqChar) (s.data ++ [dqChar]) = _
    have hdq : ¬dqChar = sqChar := by decide
    have hstep : tokStep ⟨.norm, b, cur, acc⟩ dqChar
        = ⟨.double, true, cur, acc⟩ := by simp [tokStep, hdq]
    rw [hstep, List.foldl_append, fold_double_body s.data hOK]
    show tokStep ⟨.double, true, cur ++ s.data, acc⟩ dqChar = _
    simp [tokStep, segStarts, Seg.content]

/-- An atom is OK when all its segments are and some segment starts the
token. -/
def AtomOK (a : List Seg) : Prop :=
  (∀ g ∈ a, SegOK g) ∧ a.any segStarts = true

theorem atomRender_cons (g : Seg) (a : List Seg) :
    atomRender (g :: a) = g.render ++ atomRender a := by
  cases a with
  | nil => exact (sapp_nil _).symm
  | cons g2 a2 => rfl

theorem atomContent_cons (g : Seg) (a : List Seg) :
    atomContent (g :: a) = g.content ++ atomContent a := by
  cases a with
  | nil => exact (sapp_nil _).symm
  | cons g2 a2 => rfl

theorem fold_atom (a : List Seg) (hOK : ∀ g ∈ a, SegOK g) :
    ∀ b cur acc, List.foldl tokStep ⟨.norm, b, cur, acc⟩ (atomRender a).data
      = ⟨.norm, b || a.any segStarts, cur ++ (atomContent a).data, acc⟩ := by
  induction a with
  | nil => intro b cur acc; simp [atomRender, atomContent]
  | cons g a ih =>
    intro b cur acc
    rw [atomRender_cons]
    show List.foldl tokStep _ (Seg.render g ++ atomRender a).data = _
    rw [sdata_append, List.foldl_append, fold_seg g (hOK g (by simp)),
      ih (fun x hx => hOK x (by simp [hx]))]
    simp [atomContent_cons, sdata_append, Bool.or_assoc, List.append_assoc]

def flushTok (b : Bool) (cur : List Char) : List String :=
  if b then [String.mk cur] else []

/-- Tokenizing a rendered unit list from any pending state: the pending
word is flushed, then every atom contributes its content as one word. -/
theorem tokens_units (units : List (List Seg)) (hOK : ∀ a ∈ units, AtomOK a) :
    ∀ b cur acc, tokFinish (stApply ⟨.norm, b, cur, acc⟩ (unitsRender units))
      = acc ++ flushTok b cur ++ units.map atomContent := by
  induction units with
  | nil =>
    intro b cur acc
    simp [unitsRender, stApply, tokFinish, flushTok]
  | cons a units ih =>
    intro b cur acc
    show tokFinish (stApply _ ((" " ++ atomRender a) ++ unitsRender units)) = _
    rw [stApply_append, stApply_append]
    have hsp : stApply ⟨.norm, b, cur, acc⟩ " "
        = ⟨.norm, false, [], acc ++ flushTok b cur⟩ := by
      show tokStep ⟨.norm, b, cur, acc⟩ ' ' = _
      have e1 : ¬(' ' = sqChar) := by decide
      have e2 : ¬(' ' = dqChar) := by decide
      have e3 : ¬(' ' = bsChar) := by decide
      have e4 : wsChar ' ' = true := by decide
      simp [tokStep, e1, e2, e3, e4, flushTok]
    rw [hsp]
    obtain ⟨hsegs, hstarts⟩ := hOK a (by simp)
    have hat : stApply ⟨.norm, false, [], acc ++ flushTok b cur⟩ (atomRender a)
        = ⟨.norm, true, (atomContent a).data, acc ++ flushTok b cur⟩ := by
      show List.foldl tokStep _ (atomRender a).data = _
      rw [fold_atom a hsegs]
      simp [hstarts]
    rw [hat, ih (fun x hx => hOK x (by simp [hx]))]
    show (acc ++ flushTok b cur) ++ flushTok true (atomContent a).data ++ _ = _
    simp [flushTok]

/-- Tokenizing `docker create` followed by well-formed units yields the
two command words followed by the atom contents. -/
theorem shellTokenize_units (units : List (List Seg))
    (hOK : ∀ a ∈ units, AtomOK a) :
    shellTokenize ("docker create" ++ unitsRender units)
      = ["docker", "create"] ++ units.map atomContent := by
  show tokFinish (stApply tokInit _) = _
  rw [stApply_append]
  have hdc : stApply tokInit "docker create"
      = ⟨.norm, true, "create".data, ["docker"]⟩ := by decide
  rw [hdc, tokens_units units hOK]
  rfl

/-! ## Clean values

A value is clean when every character survives rendering, field
splitting and `eval` unchanged: no IFS whitespace, no quotes, no
backslash.  Values with whitespace are exactly the ones the pipeline
mangles (see the counterexamples below). -/

/-- A value every character of which `eval` passes through untouched:
no whitespace, quote or backslash characters, and no character on which
an expansion can fire (`$`, backtick, glob, tilde, brace, redirection,
control or comment characters; see `evalExpansionChar`). -/
def cleanStr (s : String) : Prop := ∀ c ∈ s.data, plainOK c = true

instance (s : String) : Decidable (cleanStr s) := by
  unfold cleanStr; infer_instance

theorem cleanStr_noWS {s : String} (h : cleanStr s) :
    ∀ c ∈ s.data, wsChar c = false := by
  intro c hc
  have := h c hc
  simp only [plainOK, Bool.and_eq_true, Bool.not_eq_true'] at this
  exact this.1.1.1.1

theorem cleanStr_noSq {s : String} (h : cleanStr s) :
    ∀ c ∈ s.data, c ≠ sqChar := by
  intro c hc
  have := h c hc
  simp only [plainOK, Bool.and_eq_true, Bool.not_eq_true',
    decide_eq_true_eq] at this
  exact this.1.1.1.2

theorem cleanStr_noDqBs {s : String} (h : cleanStr s) :
    ∀ c ∈ s.data, c ≠ dqChar ∧ c ≠ bsChar := by
  intro c hc
  have := h c hc
  simp only [plainOK, Bool.and_eq_true, Bool.not_eq_true',
    decide_eq_true_eq] at this
  exact ⟨this.1.1.2, this.1.2⟩

theorem cleanStr_append {a b : String} (ha : cleanStr a) (hb : cleanStr b) :
    cleanStr (a ++ b) := by
  intro c hc
  rw [sdata_append] at hc
  rcases List.mem_append.1 hc with h | h
  · exact ha c h
  · exact hb c h

theorem cleanStr_lit_colon : cleanStr ":" := by decide

/-- `@sh`-quoting a clean value leaves its characters untouched. -/
theorem shQuoteCore_id (l : List Char) (h : ∀ c ∈ l, c ≠ sqChar) :
    shQuoteCore l = l := by
  induction l with
  | nil => rfl
  | cons c cs ih =>
    show (if c = sqChar then _ else [c]) ++ shQuoteCore cs = c :: cs
    rw [if_neg (h c (by simp)), ih (fun x hx => h x (by simp [hx]))]
    rfl

theorem shQuote_clean {e : String} (h : cleanStr e) :
    shQuote e = String.mk (sqChar :: e.data ++ [sqChar]) := by
  unfold shQuote
  rw [shQuoteCore_id e.data (cleanStr_noSq h)]

/-- Decimal digit characters are plain. -/
theorem natDigits_plain (n : Nat) : ∀ c ∈ natDigits n, plainOK c = true := by
  induction n using Nat.strong_induction_on with
  | _ n ih =>
    intro c hc
    unfold natDigits at hc
    by_cases h10 : n < 10
    · rw [dif_pos h10] at hc
      simp only [List.mem_singleton] at hc
      subst hc
      interval_cases n <;> decide
    · rw [dif_neg h10] at hc
      rcases List.mem_append.1 hc with h | h
      · exact ih (n / 10) (Nat.div_lt_self (by omega) (by omega)) c h
      · simp only [List.mem_singleton] at h
        subst h
        have : n % 10 < 10 := Nat.mod_lt _ (by omega)
        interval_cases hm : (n % 10) <;> simp_all <;> decide

theorem natToStr_clean (n : Nat) : cleanStr (natToStr n) :=
  natDigits_plain n

/-- Under distinct keys, `find?` by key returns the entry itself. -/
theorem find?_key_of_nodup {α : Type} [DecidableEq α] {β : Type}
    (l : List (α × β)) (hnd : (l.map (·.1)).Nodup) :
    ∀ kv ∈ l, l.find? (fun x => x.1 = kv.1) = some kv := by
  induction l with
  | nil => intro kv h; simp at h
  | cons hd tl ih =>
    intro kv hkv
    rcases List.mem_cons.1 hkv with h | h
    · subst h
      simp [List.find?]
    · have hne : hd.1 ≠ kv.1 := by
        intro he
        have : kv.1 ∈ tl.map (·.1) := List.mem_map.2 ⟨kv, h, rfl⟩
        rw [← he] at this
        exact (List.nodup_cons.1 hnd).1 this
      have htl := ih (List.nodup_cons.1 hnd).2 kv h
      simp [List.find?, hne, htl]

theorem unitsRender_append (u v : List (List Seg)) :
    unitsRender (u ++ v) = unitsRender u ++ unitsRender v := by
  induction u with
  | nil => rfl
  | cons a u ih =>
    show (" " ++ atomRender a) ++ unitsRender (u ++ v) = _
    rw [ih, ← sapp_assoc]
    rfl

/-! ## Section-by-section correspondence

Each block of the command synthesis, applied to clean values, renders
exactly the unit list `createUnits` describes.  The lines fed to field
splitting must be nonempty and whitespace-free; this is what the
cleanliness hypotheses provide. -/

theorem clean_lines {xs : List String} (h : ∀ x ∈ xs, cleanStr x ∧ x.data ≠ []) :
    ∀ x ∈ xs, x.data ≠ [] ∧ ∀ c ∈ x.data, wsChar c = false :=
  fun x hx => ⟨(h x hx).2, cleanStr_noWS (h x hx).1⟩

/-- `--flag="value"`-style sections (one atom per line). -/
theorem flagEqList_units (flag : String) (xs : List String)
    (h : ∀ x ∈ xs, cleanStr x ∧ x.data ≠ []) :
    strConcat ((splitLines xs).map (fun x => " " ++ flag ++ quoteD x))
      = unitsRender (xs.map (fun x => [Seg.plain flag, Seg.dquote x])) := by
  rw [splitLines_eq xs (clean_lines h)]
  induction xs with
  | nil => rfl
  | cons x xs ih =>
    show (" " ++ flag ++ quoteD x) ++ strConcat (xs.map _) = _
    rw [ih (fun y hy => h y (by simp [hy])), sapp_assoc " " flag (quoteD x)]
    rfl

/-- `-flag "value"`-style sections (flag word and quoted value are
separate atoms). -/
theorem flagSpaceList_units (flag : String) (xs : List String)
    (h : ∀ x ∈ xs, cleanStr x ∧ x.data ≠ []) :
    strConcat ((splitLines xs).map (fun x => " " ++ flag ++ " " ++ quoteD x))
      = unitsRender (xs.flatMap (fun x => [[Seg.plain flag], [Seg.dquote x]])) := by
  rw [splitLines_eq xs (clean_lines h)]
  induction xs with
  | nil => rfl
  | cons x xs ih =>
    show (" " ++ flag ++ " " ++ quoteD x) ++ strConcat (xs.map _) = _
    rw [ih (fun y hy => h y (by simp [hy])), List.flatMap_cons, unitsRender_append]
    apply str_ext
    simp only [unitsRender, atomRender, Seg.render, quoteD, sdata_append, sapp_nil,
      List.append_assoc, List.cons_append, List.nil_append, List.singleton_append]

/-- The environment section: `@sh`-quoted entries after `-e`. -/
theorem envList_units (env : List String) (h : ∀ e ∈ env, cleanStr e) :
    strConcat ((splitLines (env.map shQuote)).map (fun env_var => " -e " ++ env_var))
      = unitsRender (env.flatMap (fun e => [[Seg.plain "-e"], [Seg.squote e]])) := by
  have hlines : ∀ x ∈ env.map shQuote, x.data ≠ [] ∧ ∀ c ∈ x.data, wsChar c = false := by
    intro x hx
    obtain ⟨e, he, rfl⟩ := List.mem_map.1 hx
    rw [shQuote_clean (h e he)]
    refine ⟨by simp, ?_⟩
    intro c hc
    simp only [String.mk] at hc
    rcases List.mem_cons.1 hc with hcq | hc2
    · subst hcq; decide
    · rcases List.mem_append.1 hc2 with hc3 | hc4
      · exact cleanStr_noWS (h e he) c hc3
      · simp only [List.mem_singleton] at hc4
        subst hc4; decide
  rw [splitLines_eq _ hlines]
  induction env with
  | nil => rfl
  | cons e es ih =>
    show (" -e " ++ shQuote e) ++ strConcat ((es.map shQuote).map _) = _
    rw [shQuote_clean (h e (by simp)),
      ih (fun y hy => h y (by simp [hy]))
        (fun x hx => hlines x (by simp only [List.map_cons]; exact List.mem_cons_of_mem _ hx))]
    rfl

/-- The trailing command words: plain unquoted arguments. -/
theorem cmdList_units (xs : List String)
    (h : ∀ x ∈ xs, cleanStr x ∧ x.data ≠ []) :
    strConcat ((splitLines xs).map (fun arg => " " ++ arg))
      = unitsRender (xs.map (fun arg => [Seg.plain arg])) := by
  rw [splitLines_eq xs (clean_lines h)]
  induction xs with
  | nil => rfl
  | cons x xs ih =>
    show (" " ++ x) ++ strConcat (xs.map _) = _
    rw [ih (fun y hy => h y (by simp [hy]))]
    rfl

/-- The network section against a fixed lookup context.  The `hlook`
hypothesis discharges the jq key lookups (distinct keys make them return
each entry itself). -/
theorem networkList_units (ctx net : List (String × Option String))
    (hlook : ∀ nw ∈ net, lookupNet ctx nw.1 = some nw.2)
    (hc : ∀ nw ∈ net, cleanStr nw.1 ∧ nw.1.data ≠ []
      ∧ ∀ ip, nw.2 = some ip → cleanStr ip) :
    strConcat ((splitLines (net.map (·.1))).map (fun network =>
      if network = "bridge" && ctx.length > 1 then ""
      else " --network=" ++ quoteD network ++
        match lookupNet ctx network with
        | some (some ip) => if ip ≠ "" then " --ip=" ++ quoteD ip else ""
        | _ => ""))
    = unitsRender (net.flatMap (fun nw =>
        if nw.1 = "bridge" && ctx.length > 1 then []
        else [[Seg.plain "--network=", Seg.dquote nw.1]]
          ++ match nw.2 with
             | some ip =>
               if ip ≠ "" then [[Seg.plain "--ip=", Seg.dquote ip]] else []
             | none => [])) := by
  have hlines : ∀ x ∈ net.map (·.1), x.data ≠ [] ∧ ∀ c ∈ x.data, wsChar c = false := by
    intro x hx
    obtain ⟨nw, hnw, rfl⟩ := List.mem_map.1 hx
    exact ⟨(hc nw hnw).2.1, cleanStr_noWS (hc nw hnw).1⟩
  rw [splitLines_eq _ hlines]
  induction net with
  | nil => rfl
  | cons nw net ih =>
    have hlook1 := hlook nw (by simp)
    have ihres := ih (fun y hy => hlook y (by simp [hy]))
      (fun y hy => hc y (by simp [hy]))
      (fun x hx => hlines x (by
        simp only [List.map_cons]
        exact List.mem_cons_of_mem _ hx))
    show (if nw.1 = "bridge" && ctx.length > 1 then ""
          else " --network=" ++ quoteD nw.1 ++
            match lookupNet ctx nw.1 with
            | some (some ip) => if ip ≠ "" then " --ip=" ++ quoteD ip else ""
            | _ => "") ++ strConcat ((net.map (·.1)).map _) = _
    rw [hlook1, ihres, List.flatMap_cons, unitsRender_append]
    by_cases hb : (nw.1 = "bridge" && ctx.length > 1) = true
    · rw [if_pos hb, if_pos hb]
      rfl
    · rw [if_neg hb, if_neg hb]
      cases h2 : nw.2 with
      | none =>
        apply str_ext
        simp only [unitsRender_append, unitsRender, atomRender, atomContent,
          Seg.render, quoteD, sdata_append, sapp_nil, List.append_eq,
          List.append_assoc, List.cons_append, List.nil_append,
          List.singleton_append]
      | some ip =>
        apply str_ext
        by_cases hip : ip = ""
        · subst hip
          simp [unitsRender_append, unitsRender, atomRender, atomContent,
            Seg.render, quoteD, sdata_append, sapp_nil, List.append_assoc]
        · simp [hip, unitsRender_append, unitsRender, atomRender, atomContent,
            Seg.render, quoteD, sdata_append, sapp_nil, List.append_assoc]

/-- The binding loop for one port key. -/
theorem portBindings_units (port : String) (bs : List (String × String))
    (hb : ∀ b ∈ bs, cleanStr b.1 ∧ cleanStr b.2) :
    strConcat ((splitLines (bs.map (fun b => b.1 ++ ":" ++ b.2))).map (fun binding =>
      let container_port := cutFieldOne port
      let protocol := cutFieldTwo port
      if binding = ":" then " -p " ++ container_port ++ "/" ++ protocol
      else " -p " ++ binding ++ ":" ++ container_port ++ "/" ++ protocol))
    = unitsRender (bs.flatMap (fun b =>
        let binding := b.1 ++ ":" ++ b.2
        if binding = ":" then
          [[Seg.plain "-p"],
           [Seg.plain (cutFieldOne port ++ "/" ++ cutFieldTwo port)]]
        else
          [[Seg.plain "-p"],
           [Seg.plain (binding ++ ":" ++ cutFieldOne port ++ "/"
              ++ cutFieldTwo port)]])) := by
  have hlines : ∀ x ∈ bs.map (fun b => b.1 ++ ":" ++ b.2),
      x.data ≠ [] ∧ ∀ c ∈ x.data, wsChar c = false := by
    intro x hx
    obtain ⟨b, hbm, rfl⟩ := List.mem_map.1 hx
    constructor
    · show ((b.1 ++ ":") ++ b.2).data ≠ []
      rw [sdata_append, sdata_append]
      simp
    · exact cleanStr_noWS
        (cleanStr_append (cleanStr_append (hb b hbm).1 cleanStr_lit_colon)
          (hb b hbm).2)
  rw [splitLines_eq _ hlines]
  induction bs with
  | nil => rfl
  | cons b bs ih =>
    have ihres := ih (fun y hy => hb y (by simp [hy]))
      (fun x hx => hlines x (by
        simp only [List.map_cons]
        exact List.mem_cons_of_mem _ hx))
    show (let binding := b.1 ++ ":" ++ b.2
          let container_port := cutFieldOne port
          let protocol := cutFieldTwo port
          if binding = ":" then " -p " ++ container_port ++ "/" ++ protocol
          else " -p " ++ binding ++ ":" ++ container_port ++ "/" ++ protocol)
        ++ strConcat ((bs.map (fun b => b.1 ++ ":" ++ b.2)).map _) = _
    rw [ihres, List.flatMap_cons, unitsRender_append]
    show (if b.1 ++ ":" ++ b.2 = ":" then _ else _) ++ _ = _
    by_cases hcol : b.1 ++ ":" ++ b.2 = ":"
    · rw [if_pos hcol, if_pos hcol]
      apply str_ext
      simp only [unitsRender_append, unitsRender, atomRender, atomContent,
        Seg.render, sdata_append, sapp_nil, List.append_assoc,
        List.cons_append, List.nil_append, List.singleton_append]
    · rw [if_neg hcol, if_neg hcol]
      apply str_ext
      simp only [unitsRender_append, unitsRender, atomRender, atomContent,
        Seg.render, sdata_append, sapp_nil, List.append_assoc,
        List.cons_append, List.nil_append, List.singleton_append]

/-- The port section against a fixed lookup context. -/
theorem portList_units (ctx ports : List (String × Option (List (String × String))))
    (hlook : ∀ p ∈ ports, lookupPort ctx p.1 = some p.2)
    (hc : ∀ p ∈ ports, cleanStr p.1 ∧ p.1.data ≠ []
      ∧ ∀ bs, p.2 = some bs → ∀ b ∈ bs, cleanStr b.1 ∧ cleanStr b.2) :
    strConcat ((splitLines (ports.map (·.1))).map (fun port =>
      if port ≠ "null" then
        strConcat ((splitLines (portBindingLines ctx port)).map (fun binding =>
          let container_port := cutFieldOne port
          let protocol := cutFieldTwo port
          if binding = ":" then " -p " ++ container_port ++ "/" ++ protocol
          else " -p " ++ binding ++ ":" ++ container_port ++ "/" ++ protocol))
      else ""))
    = unitsRender (ports.flatMap (fun p =>
        if p.1 ≠ "null" then
          (match p.2 with | some bs => bs | none => []).flatMap (fun b =>
            let binding := b.1 ++ ":" ++ b.2
            if binding = ":" then
              [[Seg.plain "-p"],
               [Seg.plain (cutFieldOne p.1 ++ "/" ++ cutFieldTwo p.1)]]
            else
              [[Seg.plain "-p"],
               [Seg.plain (binding ++ ":" ++ cutFieldOne p.1 ++ "/"
                  ++ cutFieldTwo p.1)]])
        else [])) := by
  have hlines : ∀ x ∈ ports.map (·.1), x.data ≠ [] ∧ ∀ c ∈ x.data, wsChar c = false := by
    intro x hx
    obtain ⟨p, hp, rfl⟩ := List.mem_map.1 hx
    exact ⟨(hc p hp).2.1, cleanStr_noWS (hc p hp).1⟩
  rw [splitLines_eq _ hlines]
  induction ports with
  | nil => rfl
  | cons p ports ih =>
    have hlook1 := hlook p (by simp)
    have ihres := ih (fun y hy => hlook y (by simp [hy]))
      (fun y hy => hc y (by simp [hy]))
      (fun x hx => hlines x (by
        simp only [List.map_cons]
        exact List.mem_cons_of_mem _ hx))
    show (if p.1 ≠ "null" then
            strConcat ((splitLines (portBindingLines ctx p.1)).map _)
          else "") ++ strConcat ((ports.map (·.1)).map _) = _
    rw [ihres, List.flatMap_cons, unitsRender_append]
    by_cases hnull : p.1 ≠ "null"
    · rw [if_pos hnull, if_pos hnull]
      cases h2 : p.2 with
      | none =>
        have hbl : portBindingLines ctx p.1 = [] := by
          unfold portBindingLines
          rw [h2] at hlook1
          rw [hlook1]
        rw [hbl]
        rfl
      | some bs =>
        have hbl : portBindingLines ctx p.1
            = bs.map (fun (b : String × String) => b.1 ++ ":" ++ b.2) := by
          unfold portBindingLines
          rw [h2] at hlook1
          rw [hlook1]
        rw [hbl, portBindings_units p.1 bs
          (fun b hbm => (hc p (by simp)).2.2 bs h2 b hbm)]
    · rw [if_neg hnull, if_neg hnull]
      rfl

theorem mapThenFlatMap {α β γ : Type} (f : α → β) (g : β → List γ) (l : List α) :
    (l.map f).flatMap g = l.flatMap (fun x => g (f x)) := by
  induction l with
  | nil => rfl
  | cons a l ih => simp only [List.map_cons, List.flatMap_cons, ih]

/-- A record (plus the container name used for `--name`) whose values
survive rendering, field splitting and `eval` byte-for-byte: no
whitespace, quotes or backslashes anywhere, nonempty where a value
stands alone as a word, and distinct jq object keys. -/
structure CleanRecord (container_name : String) (r : ContainerRecord) : Prop where
  cname : cleanStr container_name
  net : ∀ nw ∈ r.network, cleanStr nw.1 ∧ nw.1.data ≠ []
    ∧ ∀ ip, nw.2 = some ip → cleanStr ip
  netNodup : (r.network.map (·.1)).Nodup
  cports : ∀ p ∈ r.ports, cleanStr p.1 ∧ p.1.data ≠ []
    ∧ ∀ bs, p.2 = some bs → ∀ b ∈ bs, cleanStr b.1 ∧ cleanStr b.2
  portsNodup : (r.ports.map (·.1)).Nodup
  cmounts : ∀ m ∈ r.mounts, cleanStr m.source ∧ cleanStr m.destination ∧ cleanStr m.mode
  cenv : ∀ e ∈ r.env, cleanStr e
  clabels : ∀ kv ∈ r.labels, cleanStr kv.1 ∧ cleanStr kv.2
  crestart : cleanStr r.restartPolicy.name
  ccapAdd : ∀ c ∈ r.hostConfig.capAdd, cleanStr c ∧ c.data ≠ []
  ccapDrop : ∀ c ∈ r.hostConfig.capDrop, cleanStr c ∧ c.data ≠ []
  cdns : ∀ d ∈ r.hostConfig.dns, cleanStr d ∧ d.data ≠ []
  cdnsSearch : ∀ d ∈ r.hostConfig.dnsSearch, cleanStr d ∧ d.data ≠ []
  cextraHosts : ∀ x ∈ r.hostConfig.extraHosts, cleanStr x ∧ x.data ≠ []
  clogType : cleanStr r.hostConfig.logConfig.type
  clogOpts : ∀ kv ∈ r.hostConfig.logConfig.config, cleanStr kv.1 ∧ cleanStr kv.2
  ccmd : ∀ a ∈ r.command, cleanStr a ∧ a.data ≠ []
  cimage : cleanStr r.image

theorem cleanStr_lit_eq : cleanStr "=" := by decide

theorem joined_colon_clean {a b : String} (ha : cleanStr a) (hb : cleanStr b) :
    cleanStr (a ++ ":" ++ b) ∧ (a ++ ":" ++ b).data ≠ [] := by
  refine ⟨cleanStr_append (cleanStr_append ha cleanStr_lit_colon) hb, ?_⟩
  rw [sdata_append, sdata_append]
  simp

theorem joined_eq_clean {a b : String} (ha : cleanStr a) (hb : cleanStr b) :
    cleanStr (a ++ "=" ++ b) ∧ (a ++ "=" ++ b).data ≠ [] := by
  refine ⟨cleanStr_append (cleanStr_append ha cleanStr_lit_eq) hb, ?_⟩
  rw [sdata_append, sdata_append]
  simp

/-- The synthesized command for a clean record renders exactly the unit
list `createUnits` describes. -/
theorem build_units (n : String) (r : ContainerRecord) (h : CleanRecord n r) :
    buildCreateCommand n r = "docker create" ++ unitsRender (createUnits n r) := by
  have hlookN : ∀ nw ∈ r.network, lookupNet r.network nw.1 = some nw.2 := by
    intro nw hnw
    unfold lookupNet
    rw [find?_key_of_nodup r.network h.netNodup nw hnw]
    rfl
  have hlookP : ∀ p ∈ r.ports, lookupPort r.ports p.1 = some p.2 := by
    intro p hp
    unfold lookupPort
    rw [find?_key_of_nodup r.ports h.portsNodup p hp]
    rfl
  have hnetEq := networkList_units r.network r.network hlookN h.net
  have hportEq := portList_units r.ports r.ports hlookP h.cports
  have hvolEq : volumeSectionStr r
      = unitsRender (r.mounts.flatMap (fun m =>
          [[Seg.plain "-v"],
           [Seg.dquote (m.source ++ ":" ++ m.destination ++ ":" ++ m.mode)]])) := by
    have harg : ∀ x ∈ r.mounts.map (fun m =>
        m.source ++ ":" ++ m.destination ++ ":" ++ m.mode),
        cleanStr x ∧ x.data ≠ [] := by
      intro x hx
      obtain ⟨m, hm, rfl⟩ := List.mem_map.1 hx
      obtain ⟨h1, h2, h3⟩ := h.cmounts m hm
      exact joined_colon_clean (cleanStr_append (cleanStr_append h1 cleanStr_lit_colon) h2) h3
    have h1 := flagSpaceList_units "-v"
      (r.mounts.map (fun m => m.source ++ ":" ++ m.destination ++ ":" ++ m.mode)) harg
    exact h1.trans (congrArg unitsRender (mapThenFlatMap _ _ _))
  have hlabelEq : labelSectionStr r
      = unitsRender (r.labels.flatMap (fun kv =>
          [[Seg.plain "--label"], [Seg.dquote (kv.1 ++ "=" ++ kv.2)]])) := by
    have harg : ∀ x ∈ r.labels.map (fun kv => kv.1 ++ "=" ++ kv.2),
        cleanStr x ∧ x.data ≠ [] := by
      intro x hx
      obtain ⟨kv, hkv, rfl⟩ := List.mem_map.1 hx
      exact joined_eq_clean (h.clabels kv hkv).1 (h.clabels kv hkv).2
    have h1 := flagSpaceList_units "--label"
      (r.labels.map (fun kv => kv.1 ++ "=" ++ kv.2)) harg
    exact h1.trans (congrArg unitsRender (mapThenFlatMap _ _ _))
  have henvEq := envList_units r.env h.cenv
  have hcmdEq := cmdList_units r.command h.ccmd
  have hrestartEq : restartSectionStr r
      = unitsRender (if r.restartPolicy.name ≠ "null" && r.restartPolicy.name ≠ "no" then
          if r.restartPolicy.maximumRetryCount ≠ 0
              && r.restartPolicy.name = "on-failure" then
            [[Seg.plain "--restart=",
              Seg.dquote (r.restartPolicy.name ++ ":"
                ++ natToStr r.restartPolicy.maximumRetryCount)]]
          else [[Seg.plain "--restart=", Seg.dquote r.restartPolicy.name]]
        else []) := by
    unfold restartSectionStr
    by_cases h1 : (r.restartPolicy.name ≠ "null" && r.restartPolicy.name ≠ "no") = true
    · rw [if_pos h1, if_pos h1]
      by_cases h2 : (r.restartPolicy.maximumRetryCount ≠ 0
          && r.restartPolicy.name = "on-failure") = true
      · rw [if_pos h2, if_pos h2]
        apply str_ext
        simp only [unitsRender, atomRender, atomContent, Seg.render, quoteD,
          sdata_append, sapp_nil, List.append_assoc, List.cons_append,
          List.nil_append, List.singleton_append]
      · rw [if_neg h2, if_neg h2]
        apply str_ext
        simp only [unitsRender, atomRender, atomContent, Seg.render, quoteD,
          sdata_append, sapp_nil, List.append_assoc, List.cons_append,
          List.nil_append, List.singleton_append]
    · rw [if_neg h1, if_neg h1]
      rfl
  have hhostEq : hostSectionStr r
      = unitsRender ((if r.hostConfig.privileged then [[Seg.plain "--privileged"]] else [])
          ++ r.hostConfig.capAdd.map (fun cap => [Seg.plain "--cap-add=", Seg.dquote cap])
          ++ r.hostConfig.capDrop.map (fun cap => [Seg.plain "--cap-drop=", Seg.dquote cap])
          ++ r.hostConfig.dns.map (fun dns => [Seg.plain "--dns=", Seg.dquote dns])
          ++ r.hostConfig.dnsSearch.map (fun dns => [Seg.plain "--dns-search=", Seg.dquote dns])
          ++ r.hostConfig.extraHosts.map (fun host => [Seg.plain "--add-host=", Seg.dquote host])
          ++ (if r.hostConfig.logConfig.type ≠ "null"
                && r.hostConfig.logConfig.type ≠ "json-file" then
                [[Seg.plain "--log-driver=", Seg.dquote r.hostConfig.logConfig.type]]
                ++ r.hostConfig.logConfig.config.map
                    (fun kv => [Seg.plain "--log-opt=", Seg.dquote (kv.1 ++ "=" ++ kv.2)])
              else [])) := by
    unfold hostSectionStr
    rw [show strConcat ((splitLines r.hostConfig.capAdd).map
          (fun cap => " --cap-add=" ++ quoteD cap))
        = unitsRender (r.hostConfig.capAdd.map
            (fun cap => [Seg.plain "--cap-add=", Seg.dquote cap]))
      from flagEqList_units "--cap-add=" r.hostConfig.capAdd h.ccapAdd]
    rw [show strConcat ((splitLines r.hostConfig.capDrop).map
          (fun cap => " --cap-drop=" ++ quoteD cap))
        = unitsRender (r.hostConfig.capDrop.map
            (fun cap => [Seg.plain "--cap-drop=", Seg.dquote cap]))
      from flagEqList_units "--cap-drop=" r.hostConfig.capDrop h.ccapDrop]
    rw [show strConcat ((splitLines r.hostConfig.dns).map
          (fun dns => " --dns=" ++ quoteD dns))
        = unitsRender (r.hostConfig.dns.map
            (fun dns => [Seg.plain "--dns=", Seg.dquote dns]))
      from flagEqList_units "--dns=" r.hostConfig.dns h.cdns]
    rw [show strConcat ((splitLines r.hostConfig.dnsSearch).map
          (fun dns => " --dns-search=" ++ quoteD dns))
        = unitsRender (r.hostConfig.dnsSearch.map
            (fun dns => [Seg.plain "--dns-search=", Seg.dquote dns]))
      from flagEqList_units "--dns-search=" r.hostConfig.dnsSearch h.cdnsSearch]
    rw [show strConcat ((splitLines r.hostConfig.extraHosts).map
          (fun host => " --add-host=" ++ quoteD host))
        = unitsRender (r.hostConfig.extraHosts.map
            (fun host => [Seg.plain "--add-host=", Seg.dquote host]))
      from flagEqList_units "--add-host=" r.hostConfig.extraHosts h.cextraHosts]
    rw [show strConcat ((splitLines (r.hostConfig.logConfig.config.map
          (fun kv => kv.1 ++ "=" ++ kv.2))).map
          (fun opt => " --log-opt=" ++ quoteD opt))
        = unitsRender (r.hostConfig.logConfig.config.map
            (fun kv => [Seg.plain "--log-opt=", Seg.dquote (kv.1 ++ "=" ++ kv.2)]))
      from by
        have harg : ∀ x ∈ r.hostConfig.logConfig.config.map
            (fun kv => kv.1 ++ "=" ++ kv.2), cleanStr x ∧ x.data ≠ [] := by
          intro x hx
          obtain ⟨kv, hkv, rfl⟩ := List.mem_map.1 hx
          exact joined_eq_clean (h.clogOpts kv hkv).1 (h.clogOpts kv hkv).2
        have h1 := flagEqList_units "--log-opt="
          (r.hostConfig.logConfig.config.map (fun kv => kv.1 ++ "=" ++ kv.2)) harg
        exact h1.trans (congrArg unitsRender (by
          rw [List.map_map]
          rfl))]
    by_cases hpriv : r.hostConfig.privileged = true
    · rw [if_pos hpriv, if_pos hpriv]
      by_cases hlogc : (r.hostConfig.logConfig.type ≠ "null"
          && r.hostConfig.logConfig.type ≠ "json-file") = true
      · rw [if_pos hlogc, if_pos hlogc]
        apply str_ext
        simp only [unitsRender_append, unitsRender, atomRender, atomContent,
          Seg.render, quoteD, sdata_append, sapp_nil, List.append_eq,
          List.append_assoc, List.cons_append, List.nil_append,
          List.singleton_append]
      · rw [if_neg hlogc, if_neg hlogc]
        apply str_ext
        simp only [unitsRender_append, unitsRender, atomRender, atomContent,
          Seg.render, quoteD, sdata_append, sapp_nil, List.append_eq,
          List.append_assoc, List.cons_append, List.nil_append,
          List.singleton_append]
    · rw [if_neg hpriv, if_neg hpriv]
      by_cases hlogc : (r.hostConfig.logConfig.type ≠ "null"
          && r.hostConfig.logConfig.type ≠ "json-file") = true
      · rw [if_pos hlogc, if_pos hlogc]
        apply str_ext
        simp only [unitsRender_append, unitsRender, atomRender, atomContent,
          Seg.render, quoteD, sdata_append, sapp_nil, List.append_eq,
          List.append_assoc, List.cons_append, List.nil_append,
          List.singleton_append]
      · rw [if_neg hlogc, if_neg hlogc]
        apply str_ext
        simp only [unitsRender_append, unitsRender, atomRender, atomContent,
          Seg.render, quoteD, sdata_append, sapp_nil, List.append_eq,
          List.append_assoc, List.cons_append, List.nil_append,
          List.singleton_append]
  show "docker create" ++ " --name " ++ quoteD n
      ++ networkSectionStr r ++ portSectionStr r ++ volumeSectionStr r
      ++ envSectionStr r ++ labelSectionStr r ++ restartSectionStr r
      ++ hostSectionStr r ++ " " ++ quoteD r.image ++ cmdSectionStr r = _
  rw [show networkSectionStr r = _ from hnetEq,
    show portSectionStr r = _ from hportEq, hvolEq,
    show envSectionStr r = _ from henvEq, hlabelEq, hrestartEq, hhostEq,
    show cmdSectionStr r = _ from hcmdEq]
  show _ = "docker create" ++ unitsRender
    ([[Seg.plain "--name"], [Seg.dquote n]] ++ _ ++ _ ++ _ ++ _ ++ _ ++ _ ++ _ ++ _
      ++ [[Seg.dquote r.image]] ++ _)
  apply str_ext
  simp only [unitsRender_append, unitsRender, atomRender, atomContent,
    Seg.render, quoteD, sdata_append, sapp_nil, List.append_eq,
    List.append_assoc, List.cons_append, List.nil_append,
    List.singleton_append]

/-! ## Well-formedness of the synthesized units -/

instance : ∀ g : Seg, Decidable (SegOK g) := fun g => by
  cases g <;> (unfold SegOK; infer_instance)

instance (a : List Seg) : Decidable (AtomOK a) := by
  unfold AtomOK; infer_instance

theorem atomOK_dquote {s : String} (hs : cleanStr s) : AtomOK [Seg.dquote s] :=
  ⟨fun g hg => by
    simp only [List.mem_singleton] at hg
    subst hg
    exact cleanStr_noDqBs hs, by simp [segStarts]⟩

theorem atomOK_squote {s : String} (hs : cleanStr s) : AtomOK [Seg.squote s] :=
  ⟨fun g hg => by
    simp only [List.mem_singleton] at hg
    subst hg
    exact cleanStr_noSq hs, by simp [segStarts]⟩

theorem atomOK_plain_word {w : String} (hw : cleanStr w) (hne : w.data ≠ []) :
    AtomOK [Seg.plain w] :=
  ⟨fun g hg => by
    simp only [List.mem_singleton] at hg
    subst hg
    exact hw, by simp [List.any_cons, segStarts, hne]⟩

theorem atomOK_flag_dquote {flag s : String} (hf : cleanStr flag)
    (hfne : flag.data ≠ []) (hs : cleanStr s) :
    AtomOK [Seg.plain flag, Seg.dquote s] := by
  refine ⟨?_, ?_⟩
  · intro g hg
    rcases List.mem_cons.1 hg with h1 | h1
    · subst h1; exact hf
    · simp only [List.mem_singleton] at h1
      subst h1
      exact cleanStr_noDqBs hs
  · simp [List.any_cons, segStarts, hfne]

theorem takeUntilSlash_clean {l : List Char} (h : ∀ c ∈ l, plainOK c = true) :
    ∀ c ∈ takeUntilSlash l, plainOK c = true := by
  induction l with
  | nil => intro c hc; simp [takeUntilSlash] at hc
  | cons x xs ih =>
    intro c hc
    unfold takeUntilSlash at hc
    by_cases hx : x = '/'
    · rw [if_pos hx] at hc; simp at hc
    · rw [if_neg hx] at hc
      rcases List.mem_cons.1 hc with h1 | h1
      · subst h1; exact h c (by simp)
      · exact ih (fun y hy => h y (by simp [hy])) c h1

theorem dropPastSlash_sublist {l : List Char} (h : ∀ c ∈ l, plainOK c = true) :
    ∀ c ∈ dropPastSlash l, plainOK c = true := by
  induction l with
  | nil => intro c hc; simp [dropPastSlash] at hc
  | cons x xs ih =>
    intro c hc
    unfold dropPastSlash at hc
    by_cases hx : x = '/'
    · rw [if_pos hx] at hc
      exact h c (by simp [hc])
    · rw [if_neg hx] at hc
      exact ih (fun y hy => h y (by simp [hy])) c hc

theorem cutFieldOne_clean {s : String} (h : cleanStr s) : cleanStr (cutFieldOne s) :=
  takeUntilSlash_clean h

theorem cutFieldTwo_clean {s : String} (h : cleanStr s) : cleanStr (cutFieldTwo s) := by
  unfold cutFieldTwo
  by_cases hc : s.data.contains '/' = true
  · rw [if_pos hc]
    exact takeUntilSlash_clean (dropPastSlash_sublist h)
  · rw [if_neg hc]
    exact h

theorem cleanStr_lit_slash : cleanStr "/" := by decide

/-- Joining clean pieces around a nonempty clean literal gives a clean,
nonempty word. -/
theorem joined_clean {a sep b : String} (ha : cleanStr a) (hsep : cleanStr sep)
    (hne : sep.data ≠ []) (hb : cleanStr b) :
    cleanStr (a ++ sep ++ b) ∧ (a ++ sep ++ b).data ≠ [] := by
  refine ⟨cleanStr_append (cleanStr_append ha hsep) hb, ?_⟩
  rw [sdata_append, sdata_append]
  intro hnil
  rcases List.append_eq_nil.1 hnil with ⟨h1, _⟩
  rcases List.append_eq_nil.1 h1 with ⟨_, h3⟩
  exact hne h3

/-- Every atom of the synthesized unit list for a clean record is
well formed. -/
theorem createUnits_OK (n : String) (r : ContainerRecord) (h : CleanRecord n r) :
    ∀ a ∈ createUnits n r, AtomOK a := by
  intro a ha
  unfold createUnits at ha
  simp only [List.append_assoc, List.mem_append] at ha
  rcases ha with ha | ha | ha | ha | ha | ha | ha | ha | ha | ha | ha | ha | ha | ha | ha
  · -- --name / quoted name
    rcases List.mem_cons.1 ha with h1 | h1
    · subst h1; decide
    · simp only [List.mem_singleton] at h1
      subst h1
      exact atomOK_dquote h.cname
  · -- networks
    obtain ⟨nw, hnw, hmem⟩ := List.mem_flatMap.1 ha
    obtain ⟨hn1, _, hip⟩ := h.net nw hnw
    by_cases hb : (nw.1 = "bridge" && r.network.length > 1) = true
    · rw [if_pos hb] at hmem; simp at hmem
    · rw [if_neg hb] at hmem
      rcases List.mem_append.1 hmem with h1 | h1
      · simp only [List.mem_singleton] at h1
        subst h1
        exact atomOK_flag_dquote (by decide) (by decide) hn1
      · cases h2 : nw.2 with
        | none => rw [h2] at h1; simp at h1
        | some ip =>
          rw [h2] at h1
          have h1a : a ∈ (if ip ≠ "" then [[Seg.plain "--ip=", Seg.dquote ip]]
              else ([] : List (List Seg))) := h1
          by_cases hip0 : ip ≠ ""
          · rw [if_pos hip0] at h1a
            simp only [List.mem_singleton] at h1a
            subst h1a
            exact atomOK_flag_dquote (by decide) (by decide) (hip ip h2)
          · rw [if_neg hip0] at h1a; simp at h1a
  · -- ports
    obtain ⟨p, hp, hmem⟩ := List.mem_flatMap.1 ha
    obtain ⟨hp1, _, hbs⟩ := h.cports p hp
    by_cases hn0 : p.1 ≠ "null"
    · rw [if_pos hn0] at hmem
      obtain ⟨b, hbm, hmem2⟩ := List.mem_flatMap.1 hmem
      have hbclean : cleanStr b.1 ∧ cleanStr b.2 := by
        cases h2 : p.2 with
        | none => rw [h2] at hbm; simp at hbm
        | some bs => exact hbs bs h2 b (by rw [h2] at hbm; exact hbm)
      have hargclean : cleanStr (cutFieldOne p.1 ++ "/" ++ cutFieldTwo p.1)
          ∧ (cutFieldOne p.1 ++ "/" ++ cutFieldTwo p.1).data ≠ [] :=
        joined_clean (cutFieldOne_clean hp1) cleanStr_lit_slash (by decide)
          (cutFieldTwo_clean hp1)
      by_cases hcol : b.1 ++ ":" ++ b.2 = ":"
      · simp only [hcol, if_pos] at hmem2
        rcases List.mem_cons.1 hmem2 with h1 | h1
        · subst h1; decide
        · simp only [List.mem_singleton] at h1
          subst h1
          exact atomOK_plain_word hargclean.1 hargclean.2
      · simp only [hcol, if_neg, if_false] at hmem2
        rcases List.mem_cons.1 hmem2 with h1 | h1
        · subst h1; decide
        · simp only [List.mem_singleton] at h1
          subst h1
          have hbind : cleanStr (b.1 ++ ":" ++ b.2) :=
            cleanStr_append (cleanStr_append hbclean.1 cleanStr_lit_colon) hbclean.2
          have hx : cleanStr (b.1 ++ ":" ++ b.2 ++ ":" ++ cutFieldOne p.1) :=
            cleanStr_append (cleanStr_append hbind cleanStr_lit_colon)
              (cutFieldOne_clean hp1)
          have hfull := joined_clean hx cleanStr_lit_slash (by decide)
            (cutFieldTwo_clean hp1)
          exact atomOK_plain_word hfull.1 hfull.2
    · rw [if_neg hn0] at hmem; simp at hmem
  · -- volumes
    obtain ⟨m, hm, hmem⟩ := List.mem_flatMap.1 ha
    obtain ⟨h1, h2, h3⟩ := h.cmounts m hm
    rcases List.mem_cons.1 hmem with hh | hh
    · subst hh; decide
    · simp only [List.mem_singleton] at hh
      subst hh
      exact atomOK_dquote
        (joined_clean (cleanStr_append (cleanStr_append h1 cleanStr_lit_colon) h2)
          cleanStr_lit_colon (by decide) h3).1
  · -- env
    obtain ⟨e, he, hmem⟩ := List.mem_flatMap.1 ha
    rcases List.mem_cons.1 hmem with hh | hh
    · subst hh; decide
    · simp only [List.mem_singleton] at hh
      subst hh
      exact atomOK_squote (h.cenv e he)
  · -- labels
    obtain ⟨kv, hkv, hmem⟩ := List.mem_flatMap.1 ha
    rcases List.mem_cons.1 hmem with hh | hh
    · subst hh; decide
    · simp only [List.mem_singleton] at hh
      subst hh
      exact atomOK_dquote
        (joined_clean (h.clabels kv hkv).1 cleanStr_lit_eq (by decide)
          (h.clabels kv hkv).2).1
  · -- restart policy
    by_cases h1 : (r.restartPolicy.name ≠ "null" && r.restartPolicy.name ≠ "no") = true
    · rw [if_pos h1] at ha
      by_cases h2 : (r.restartPolicy.maximumRetryCount ≠ 0
          && r.restartPolicy.name = "on-failure") = true
      · rw [if_pos h2] at ha
        simp only [List.mem_singleton] at ha
        subst ha
        exact atomOK_flag_dquote (by decide) (by decide)
          (joined_clean h.crestart cleanStr_lit_colon (by decide)
            (natToStr_clean _)).1
      · rw [if_neg h2] at ha
        simp only [List.mem_singleton] at ha
        subst ha
        exact atomOK_flag_dquote (by decide) (by decide) h.crestart
    · rw [if_neg h1] at ha; simp at ha
  · -- privileged
    by_cases h1 : r.hostConfig.privileged = true
    · rw [if_pos h1] at ha
      simp only [List.mem_singleton] at ha
      subst ha; decide
    · rw [if_neg h1] at ha; simp at ha
  · -- cap-add
    obtain ⟨c, hcm, rfl⟩ := List.mem_map.1 ha
    exact atomOK_flag_dquote (by decide) (by decide) (h.ccapAdd c hcm).1
  · -- cap-drop
    obtain ⟨c, hcm, rfl⟩ := List.mem_map.1 ha
    exact atomOK_flag_dquote (by decide) (by decide) (h.ccapDrop c hcm).1
  · -- dns
    obtain ⟨d, hdm, rfl⟩ := List.mem_map.1 ha
    exact atomOK_flag_dquote (by decide) (by decide) (h.cdns d hdm).1
  · -- dns-search
    obtain ⟨d, hdm, rfl⟩ := List.mem_map.1 ha
    exact atomOK_flag_dquote (by decide) (by decide) (h.cdnsSearch d hdm).1
  · -- add-host
    obtain ⟨x, hxm, rfl⟩ := List.mem_map.1 ha
    exact atomOK_flag_dquote (by decide) (by decide) (h.cextraHosts x hxm).1
  · -- log driver and options
    by_cases h1 : (r.hostConfig.logConfig.type ≠ "null"
        && r.hostConfig.logConfig.type ≠ "json-file") = true
    · rw [if_pos h1] at ha
      rcases List.mem_append.1 ha with h2 | h2
      · simp only [List.mem_singleton] at h2
        subst h2
        exact atomOK_flag_dquote (by decide) (by decide) h.clogType
      · obtain ⟨kv, hkv, rfl⟩ := List.mem_map.1 h2
        exact atomOK_flag_dquote (by decide) (by decide)
          (joined_clean (h.clogOpts kv hkv).1 cleanStr_lit_eq (by decide)
            (h.clogOpts kv hkv).2).1
    · rw [if_neg h1] at ha; simp at ha
  · -- image and command words
    rcases ha with h1 | h1
    · simp only [List.mem_singleton] at h1
      subst h1
      exact atomOK_dquote h.cimage
    · obtain ⟨arg, harg, rfl⟩ := List.mem_map.1 h1
      exact atomOK_plain_word (h.ccmd arg harg).1 (h.ccmd arg harg).2

/-- For a clean record, `eval`'s tokenization of the synthesized command
string is exactly the intended argument vector. -/
theorem tokenize_build (n : String) (r : ContainerRecord) (h : CleanRecord n r) :
    shellTokenize (buildCreateCommand n r) = createTokens n r := by
  rw [build_units n r h, shellTokenize_units _ (createUnits_OK n r h)]
  rfl

/-! ## The update cycle as a trace of engine operations

`update_containers` (updater script, lines 246–495) issues docker
commands one container at a time.  The model records the issued
operations; the outcomes of the fallible ones (pull, stop, rm, create,
start) are supplied by oracles, mirroring the `if ! docker ...; then
continue` structure of the script. -/

inductive DockerOp
  | pull (image : String)
  | backup (container : String)
  | stop (container : String)
  | rm (container : String)
  | create (container : String) (cmd : String)
  | start (container : String)
  | notify (container currentImageId newImageId : String)
  | rmi (imageId : String)
deriving DecidableEq, Repr

structure UpdaterEnv where
  pullOf : String → Option String       -- image ref ↦ id after pull; none = pull failed
  approachOf : String → Option String   -- live `update-approach` label by name; none = inspect failed
  stopOk : String → Bool
  rmOk : String → Bool
  createOk : String → Bool
  startOk : String → Bool
  cleanupOldImages : Bool               -- CLEANUP_OLD_IMAGES

/-- jq's `.[] | select(.name == "/<name>")` over the inventory (updater
script, line 273). -/
def findRecord (inv : List ContainerRecord) (container_name : String) :
    Option ContainerRecord :=
  inv.find? (fun cd => cd.name = "/" ++ container_name)

/-- One iteration of the update loop (updater script, lines 269–491):
skip when the record is missing, the image is locally built, the pull
fails, or the image id is unchanged; notify instead of updating when the
live `update-approach` label is `notify`; otherwise backup, stop, remove,
create, start, each step abandoning the container on failure; optionally
remove the old image. -/
def processContainer (inv : List ContainerRecord) (container_name : String)
    (env : UpdaterEnv) : List DockerOp :=
  match findRecord inv container_name with
  | none => []
  | some container_data =>
    let image_name := container_data.image
    if is_locally_built_image image_name then []
    else
      match env.pullOf image_name with
      | none => [.pull image_name]
      | some new_image_id =>
        let current_image_id := container_data.imageId
        if new_image_id = current_image_id then [.pull image_name]
        else if (env.approachOf container_name).getD "" = "notify" then
          [.pull image_name, .notify container_name current_image_id new_image_id]
        else
          [.pull image_name, .backup container_name, .stop container_name]
          ++ (if env.stopOk container_name then
                [.rm container_name]
                ++ (if env.rmOk container_name then
                      [.create container_name
                        (buildCreateCommand container_name container_data)]
                      ++ (if env.createOk container_name then
                            [.start container_name]
                            ++ (if env.startOk container_name then
                                  (if env.cleanupOldImages then
                                    [.rmi current_image_id] else [])
                                else [])
                          else [])
                    else [])
              else [])

/-- The loop's container list (updater script, lines 256–262): inventory
entries carrying a recognized auto-update label, their names stripped of
the leading slash and field-split by the unquoted `for`. -/
def selectedNames (inv : List ContainerRecord) : List String :=
  splitLines ((inv.filter (fun cd => hasAutoUpdateLabelExact cd.labels)).map
    (fun cd => stripLeadingSlash cd.name))

/-- The whole update pass: every selected container processed in turn. -/
def update_containers (inv : List ContainerRecord) (env : UpdaterEnv) :
    List DockerOp :=
  (selectedNames inv).flatMap (fun container_name =>
    processContainer inv container_name env)

/-- The four operations of the recreation sequence. -/
def isDestructive : DockerOp → Bool
  | .stop _ => true
  | .rm _ => true
  | .create _ _ => true
  | .start _ => true
  | _ => false

/-- Whether an operation is a destructive operation on the named
container. -/
def opTouches (op : DockerOp) (name : String) : Bool :=
  match op with
  | .stop n => n = name
  | .rm n => n = name
  | .create n _ => n = name
  | .start n => n = name
  | _ => false

/-! ## The web `DockerService` -/

/-- One container as `getInventoryContainers` (dockerService.js lines
71–96) presents the inventory: the leading slash stripped from the
name. -/
structure WebContainer where
  id : String
  name : String
  image : String
  imageId : String
  labels : List (String × String)
deriving DecidableEq, Repr

def js_getInventoryContainers (inv : List ContainerRecord) : List WebContainer :=
  inv.map (fun c =>
    ⟨c.id, stripLeadingSlash c.name, c.image, c.imageId, c.labels⟩)

inductive WebEffect
  | pull (image : String)
  | inspectImage (image : String)
  | runUpdateScript (containerName : String)
deriving DecidableEq, Repr

structure UpdateResult where
  success : Bool
  message : String
  updated : Bool
deriving DecidableEq, Repr

/-- `DockerService.updateContainer` (dockerService.js lines 160–211):
find the container in the inventory, require an auto-update label, pull,
compare image ids, and hand off to the updater script only when the id
changed.  A thrown error is an `Except.error`; the effect list records
the external commands issued. -/
def js_updateContainer (inv : List ContainerRecord) (containerName : String)
    (pullOk : String → Bool) (inspectId : String → Option String) :
    Except String UpdateResult × List WebEffect :=
  let containers := js_getInventoryContainers inv
  match containers.find? (fun c => c.name = containerName) with
  | none =>
    (.error ("Container " ++ containerName ++ " not found in inventory"), [])
  | some container =>
    if !js_hasAutoUpdateLabel container.labels then
      (.error ("Container " ++ containerName ++ " does not have auto-update label"), [])
    else if !pullOk container.image then
      (.error "docker pull failed", [.pull container.image])
    else
      match inspectId container.image with
      | none =>
        (.error "docker inspect failed",
         [.pull container.image, .inspectImage container.image])
      | some newImageId =>
        if newImageId = container.imageId then
          (.ok ⟨true, "No update needed - container is already running the latest image", false⟩,
           [.pull container.image, .inspectImage container.image])
        else
          (.ok ⟨true, "Container " ++ containerName ++ " updated successfully", true⟩,
           [.pull container.image, .inspectImage container.image,
            .runUpdateScript containerName])

/-- `UpdateStatus` as `checkImageUpdateStatus` computes it
(dockerService.js lines 98–158). -/
structure UpdateStatus where
  currentImageId : Option String
  latestImageId : Option String
  updateAvailable : Bool
  isLocallyBuilt : Option Bool
  error : Option String
deriving DecidableEq, Repr

/-- `DockerService.checkImageUpdateStatus` (dockerService.js lines
98–158).  The method body first inspects the current image, then calls
`this.isLocallyBuiltImage` — a method that is not defined anywhere on
the class — so that call throws a TypeError, and the outer catch (lines
148–157) turns every invocation into a non-fatal error status with
`updateAvailable: false`; the pull of line 122 and the inner pull-error
handler (lines 137–147) are unreachable. -/
def js_checkImageUpdateStatus (container : WebContainer)
    (inspectId : String → Option String) (pullOk : String → Bool) :
    UpdateStatus :=
  match inspectId container.image with
  | none =>
    { currentImageId := some container.imageId, latestImageId := none,
      updateAvailable := false, isLocallyBuilt := none,
      error := some "inspect failed" }
  | some _ =>
    { currentImageId := some container.imageId, latestImageId := none,
      updateAvailable := false, isLocallyBuilt := none,
      error := some "this.isLocallyBuiltImage is not a function" }

/-! ## Webhook authentication and the web routes -/

structure WebhookRequest where
  authorization : Option String
  xHubSignature256 : Option String
  xSignature : Option String
  xWebhookToken : Option String
  body : String
deriving DecidableEq, Repr

inductive AuthResult
  | next (method : String)
  | reject401 (msg : String)
deriving DecidableEq, Repr

/-- JS truthiness of a header value: absent and empty are both falsy. -/
def presentHeader (o : Option String) : Option String :=
  match o with
  | some s => if s = "" then none else some s
  | none => none

/-- `crypto.timingSafeEqual` wrapped by `verifySignature`: a length
mismatch throws, the catch returns false; equal-length buffers compare
byte-wise. -/
def timingSafeEq (a b : String) : Bool :=
  if a.length ≠ b.length then false else a = b

/-- `WebhookService.verifySignature` (webhookService.js lines 64–90).
`hmacHex alg secret body` stands for the hex HMAC digest. -/
def verifySignature (signature body secret : String)
    (hmacHex : String → String → String → String) : Bool :=
  if signature.startsWith "sha256=" then
    timingSafeEq signature ("sha256=" ++ hmacHex "sha256" secret body)
  else if signature.startsWith "sha1=" then
    timingSafeEq signature ("sha1=" ++ hmacHex "sha1" secret body)
  else false

/-- The Bearer token of the `Authorization` header, when one is carried
(webhookService.js lines 13, 18–19). -/
def bearerOf (req : WebhookRequest) : Option String :=
  match req.authorization with
  | some a => if a.startsWith "Bearer " then some (a.drop 7) else none
  | none => none

/-- The signature header `authenticateWebhook` reads (webhookService.js
line 14): `x-hub-signature-256` falling back to `x-signature`. -/
def sigOf (req : WebhookRequest) : Option String :=
  (presentHeader req.xHubSignature256).orElse
    (fun _ => presentHeader req.xSignature)

/-- `WebhookService.authenticateWebhook` (webhookService.js lines
11–62): a Bearer JWT is verified first, then an `X-Webhook-Token`
header, then a GitHub/GitLab-style signature; with none of them the
request proceeds unauthenticated with method `none`. -/
def authenticateWebhook (req : WebhookRequest) (jwtSecret webhookSecret : String)
    (jwtValid : String → String → Bool)
    (hmacHex : String → String → String → String) : AuthResult :=
  match bearerOf req with
  | some token =>
    if jwtValid jwtSecret token then .next "jwt"
    else .reject401 "Invalid JWT token"
  | none =>
    match presentHeader req.xWebhookToken with
    | some webhookToken =>
      if webhookToken = webhookSecret then .next "token"
      else .reject401 "Invalid webhook token"
    | none =>
      match sigOf req with
      | some sg =>
        if verifySignature sg req.body webhookSecret hmacHex then .next "signature"
        else .reject401 "Invalid signature"
      | none => .next "none"

structure RouteResponse where
  status : Nat
  ok : Bool
deriving DecidableEq, Repr

/-- The `POST /webhook/:containerName` handler (server.js lines
219–238): after `authenticateWebhook`, it calls
`dockerService.updateContainer(containerName)` and maps the outcome to
200/500 (a 401 rejection never reaches the handler). -/
def webhookRoute (auth : AuthResult) (inv : List ContainerRecord)
    (containerName : String) (pullOk : String → Bool)
    (inspectId : String → Option String) : RouteResponse × List WebEffect :=
  match auth with
  | .reject401 _ => (⟨401, false⟩, [])
  | .next _ =>
    match js_updateContainer inv containerName pullOk inspectId with
    | (.ok _, eff) => (⟨200, true⟩, eff)
    | (.error _, eff) => (⟨500, false⟩, eff)

/-- The `POST /api/containers/:name/update` handler (server.js lines
186–195): the manual dashboard-triggered update, calling the same
`dockerService.updateContainer`. -/
def manualUpdateRoute (inv : List ContainerRecord) (containerName : String)
    (pullOk : String → Bool) (inspectId : String → Option String) :
    RouteResponse × List WebEffect :=
  match js_updateContainer inv containerName pullOk inspectId with
  | (.ok _, eff) => (⟨200, true⟩, eff)
  | (.error _, eff) => (⟨500, false⟩, eff)

/-! ## Classifier lemmas (C5) -/

theorem bool_eq_of_iff {a b : Bool} (h : a = true ↔ b = true) : a = b := by
  cases a <;> cases b <;> simp_all

theorem matchComposePat_eq (l : List Char) :
    matchComposePat l
      = (l.all (fun c => c ≠ '/') && l.any (fun c => c = '_' || c = '-')) := by
  induction l with
  | nil => rfl
  | cons c rest ih =>
    unfold matchComposePat
    by_cases hc : c = '/'
    · rw [if_pos hc]
      subst hc
      simp
    · rw [if_neg hc]
      by_cases hcond : ((c = '_' || c = '-') && noSlash rest) = true
      · rw [if_pos hcond]
        simp only [Bool.and_eq_true] at hcond
        have h1 : (c :: rest).all (fun c => c ≠ '/') = true := by
          rw [List.all_cons]
          simp only [Bool.and_eq_true]
          exact ⟨decide_eq_true hc, hcond.2⟩
        have h2 : (c :: rest).any (fun c => c = '_' || c = '-') = true := by
          rw [List.any_cons, hcond.1]
          rfl
        rw [h1, h2]
        rfl
      · rw [if_neg hcond, ih]
        simp only [Bool.and_eq_true, not_and] at hcond
        by_cases hu : (c = '_' || c = '-') = true
        · have hns : rest.all (fun c => c ≠ '/') = false := by
            cases hq : noSlash rest with
            | false => exact hq
            | true => exact absurd hq (hcond hu)
          simp only [decide_not] at hns
          simp [List.all_cons, List.any_cons, hns]
        · have hu2 : (c = '_' || c = '-') = false := by
            cases hq : (c = '_' || c = '-') with
            | false => rfl
            | true => exact absurd hq hu
          simp [List.all_cons, List.any_cons, hu2, hc]

theorem all_mono {l : List Char} {p q : Char → Bool}
    (h : ∀ c, p c = true → q c = true) : l.all p = true → l.all q = true := by
  simp only [List.all_eq_true]
  intro h1 c hc
  exact h c (h1 c hc)

theorem noSlash_eq_not_contains (l : List Char) :
    l.all (fun c => c ≠ '/') = !(l.contains '/') := by
  apply bool_eq_of_iff
  rw [List.all_eq_true, Bool.not_eq_true', ← Bool.not_eq_true]
  constructor
  · intro h hmem
    rw [List.elem_iff] at hmem
    have hcontra := h '/' hmem
    simp at hcontra
  · intro h c hc
    simp only [decide_eq_true_eq]
    intro he
    subst he
    exact h (List.elem_iff.2 hc)
  
theorem anyUD_eq_contains (l : List Char) :
    l.any (fun c => c = '_' || c = '-') = (l.contains '_' || l.contains '-') := by
  apply bool_eq_of_iff
  rw [List.any_eq_true, Bool.or_eq_true]
  constructor
  · rintro ⟨c, hc, hud⟩
    simp only [Bool.or_eq_true, decide_eq_true_eq] at hud
    rcases hud with rfl | rfl
    · exact Or.inl (List.elem_iff.2 hc)
    · exact Or.inr (List.elem_iff.2 hc)
  · rintro (h | h)
    · exact ⟨'_', List.elem_iff.1 h, by simp⟩
    · exact ⟨'-', List.elem_iff.1 h, by simp⟩

/-- The updater's classifier is exactly the documented rule: no `/`
anywhere and at least one `_` or `-` (the second test of the function is
subsumed by the first). -/
theorem is_locally_built_image_spec (s : String) :
    is_locally_built_image s = specLocallyBuiltRule s := by
  have hbase : is_locally_built_image s
      = (s.data.all (fun c => c ≠ '/') && s.data.any (fun c => c = '_' || c = '-')) := by
    unfold is_locally_built_image
    by_cases hm : matchComposePat s.data = true
    · rw [if_pos hm, ← matchComposePat_eq, hm]
    · rw [if_neg hm]
      have hfalse : (s.data.all (fun c => c ≠ '/')
          && s.data.any (fun c => c = '_' || c = '-')) = false := by
        cases hq : (s.data.all (fun c => c ≠ '/')
            && s.data.any (fun c => c = '_' || c = '-')) with
        | false => rfl
        | true => exact absurd (by rw [matchComposePat_eq]; exact hq) hm
      rw [hfalse]
      by_cases h2 : (s.data.all (fun c => c ≠ '.' && c ≠ '/')
          && s.data.any (fun c => c = '_' || c = '-')) = true
      · exfalso
        simp only [Bool.and_eq_true] at h2
        have hall : s.data.all (fun c => c ≠ '/') = true :=
          all_mono (fun c hc => by
            simp only [Bool.and_eq_true] at hc
            exact hc.2) h2.1
        rw [hall, h2.2] at hfalse
        simp at hfalse
      · rw [if_neg h2]
  rw [hbase]
  unfold specLocallyBuiltRule
  rw [noSlash_eq_not_contains, anyUD_eq_contains]

/-! ## Label rendering lemmas (C2) -/

theorem append_sep_inj {sep : Char} : ∀ {l1 l2 r1 r2 : List Char},
    sep ∉ l1 → sep ∉ l2 → l1 ++ sep :: r1 = l2 ++ sep :: r2 →
    l1 = l2 ∧ r1 = r2 := by
  intro l1
  induction l1 with
  | nil =>
    intro l2 r1 r2 h1 h2 heq
    cases l2 with
    | nil => simpa using heq
    | cons b bs =>
      simp only [List.nil_append, List.cons_append, List.cons.injEq] at heq
      exact absurd (by rw [← heq.1]; exact List.mem_cons_self _ _) h2
  | cons a as ih =>
    intro l2 r1 r2 h1 h2 heq
    cases l2 with
    | nil =>
      simp only [List.cons_append, List.nil_append, List.cons.injEq] at heq
      exact absurd (by rw [heq.1]; exact List.mem_cons_self _ _) h1
    | cons b bs =>
      simp only [List.cons_append, List.cons.injEq] at heq
      obtain ⟨hab, hrest⟩ := heq
      obtain ⟨hl, hr⟩ := ih (fun hm => h1 (List.mem_cons_of_mem _ hm))
        (fun hm => h2 (List.mem_cons_of_mem _ hm)) hrest
      subst hab hl hr
      exact ⟨rfl, rfl⟩

/-- A rendered `key=value` line determines the pair, as long as neither
key contains `=`. -/
theorem label_word_eq {k v tk tv : String} (hk : '=' ∉ k.data)
    (htk : '=' ∉ tk.data) :
    (k ++ "=" ++ v = tk ++ "=" ++ tv) ↔ (k = tk ∧ v = tv) := by
  constructor
  · intro he
    have hd : k.data ++ '=' :: v.data = tk.data ++ '=' :: tv.data := by
      have h0 := congrArg String.data he
      simpa [sdata_append, List.append_assoc] using h0
    obtain ⟨h1, h2⟩ := append_sep_inj hk htk hd
    exact ⟨str_ext h1, str_ext h2⟩
  · rintro ⟨rfl, rfl⟩
    rfl

theorem lookupKey_mem {labels : List (String × String)} {k v : String}
    (hnd : (labels.map (·.1)).Nodup) :
    lookupKey labels k = some v ↔ (k, v) ∈ labels := by
  constructor
  · intro h
    unfold lookupKey at h
    cases hf : labels.find? (fun kv => kv.1 = k) with
    | none =>
      rw [hf] at h
      exact absurd h (by simp)
    | some kv =>
      rw [hf] at h
      simp at h
      have hmem := List.mem_of_find?_eq_some hf
      have hpred := List.find?_some hf
      simp only [decide_eq_true_eq] at hpred
      have hkv : kv = (k, v) := by
        cases kv
        simp_all
      rw [← hkv]
      exact hmem
  · intro hmem
    unfold lookupKey
    rw [show labels.find? (fun kv => kv.1 = k) = some (k, v) from
      find?_key_of_nodup labels hnd (k, v) hmem]
    rfl

/-- With whitespace-free labels, distinct keys, and no `=` inside keys,
the word-split label scan of `document_containers` coincides with
carrying one of the four recognized labels with value `"true"`. -/
theorem documentLabelCheck_eq_exact (labels : List (String × String))
    (hclean : ∀ kv ∈ labels, cleanStr kv.1 ∧ cleanStr kv.2)
    (hkeq : ∀ kv ∈ labels, '=' ∉ kv.1.data)
    (hnd : (labels.map (·.1)).Nodup) :
    documentLabelCheck labels = hasAutoUpdateLabelExact labels := by
  apply bool_eq_of_iff
  unfold documentLabelCheck
  rw [splitLines_eq _ (fun x hx => by
    obtain ⟨kv, hkv, rfl⟩ := List.mem_map.1 hx
    exact ⟨(joined_eq_clean (hclean kv hkv).1 (hclean kv hkv).2).2,
      cleanStr_noWS (joined_eq_clean (hclean kv hkv).1 (hclean kv hkv).2).1⟩)]
  rw [List.any_eq_true]
  constructor
  · rintro ⟨w, hw, hrec⟩
    obtain ⟨kv, hkv, rfl⟩ := List.mem_map.1 hw
    have hrec2 : kv.1 ++ "=" ++ kv.2 ∈ recognizedLabelWords :=
      List.elem_iff.1 hrec
    have hk := hkeq kv hkv
    unfold hasAutoUpdateLabelExact
    simp only [recognizedLabelWords, List.mem_cons, List.mem_singleton,
      List.not_mem_nil, or_false] at hrec2
    rcases hrec2 with he | he | he | he
    · obtain ⟨h1, h2⟩ :=
        (@label_word_eq kv.1 kv.2 "auto-update" "true" hk (by decide)).1 he
      have : (("auto-update" : String), ("true" : String)) ∈ labels := by
        rw [← h1, ← h2]
        exact hkv
      simp [(lookupKey_mem hnd).2 this]
    · obtain ⟨h1, h2⟩ :=
        (@label_word_eq kv.1 kv.2 "com.your.auto-update" "true" hk (by decide)).1 he
      have : (("com.your.auto-update" : String), ("true" : String)) ∈ labels := by
        rw [← h1, ← h2]
        exact hkv
      simp [(lookupKey_mem hnd).2 this]
    · obtain ⟨h1, h2⟩ :=
        (@label_word_eq kv.1 kv.2 "com.github.containrrr.watchtower.enable" "true" hk (by decide)).1 he
      have : (("com.github.containrrr.watchtower.enable" : String), ("true" : String)) ∈ labels := by
        rw [← h1, ← h2]
        exact hkv
      simp [(lookupKey_mem hnd).2 this]
    · obtain ⟨h1, h2⟩ :=
        (@label_word_eq kv.1 kv.2 "com.centurylinklabs.watchtower.enable" "true" hk (by decide)).1 he
      have : (("com.centurylinklabs.watchtower.enable" : String), ("true" : String)) ∈ labels := by
        rw [← h1, ← h2]
        exact hkv
      simp [(lookupKey_mem hnd).2 this]
  · intro hex
    unfold hasAutoUpdateLabelExact at hex
    simp only [Bool.or_eq_true, decide_eq_true_eq] at hex
    have hcase : ∃ t : String, (t, ("true" : String)) ∈ labels
        ∧ t ++ "=" ++ "true" ∈ recognizedLabelWords := by
      rcases hex with ((h | h) | h) | h
      · exact ⟨_, (lookupKey_mem hnd).1 h, by decide⟩
      · exact ⟨_, (lookupKey_mem hnd).1 h, by decide⟩
      · exact ⟨_, (lookupKey_mem hnd).1 h, by decide⟩
      · exact ⟨_, (lookupKey_mem hnd).1 h, by decide⟩
    obtain ⟨t, hmem, hword⟩ := hcase
    exact ⟨t ++ "=" ++ "true",
      List.mem_map.2 ⟨(t, "true"), hmem, rfl⟩,
      List.elem_iff.2 hword⟩

/-! ## Update-cycle trace lemmas (C3, C4, C8) -/

/-- A destructive operation issued while processing `n` always names
`n` itself. -/
theorem process_touches (inv : List ContainerRecord) (n m : String)
    (env : UpdaterEnv) :
    ∀ op ∈ processContainer inv n env, opTouches op m = true → m = n := by
  intro op hop htouch
  unfold processContainer at hop
  rcases hfind : findRecord inv n with _ | cd
  · simp only [hfind] at hop; simp at hop
  · simp only [hfind] at hop
    by_cases hloc : is_locally_built_image cd.image = true
    · rw [if_pos hloc] at hop; simp at hop
    · rw [if_neg hloc] at hop
      rcases hpull : env.pullOf cd.image with _ | newId
      · simp only [hpull] at hop
        simp only [List.mem_singleton] at hop
        subst hop
        simp [opTouches] at htouch
      · simp only [hpull] at hop
        by_cases hsame : newId = cd.imageId
        · rw [if_pos hsame] at hop
          simp only [List.mem_singleton] at hop
          subst hop
          simp [opTouches] at htouch
        · rw [if_neg hsame] at hop
          by_cases hap : (env.approachOf n).getD "" = "notify"
          · rw [if_pos hap] at hop
            simp only [List.mem_cons, List.mem_singleton] at hop
            rcases hop with rfl | rfl | h
            · simp [opTouches] at htouch
            · simp [opTouches] at htouch
            · simp at h
          · rw [if_neg hap] at hop
            rcases List.mem_append.1 hop with h | h
            · simp only [List.mem_cons, List.mem_singleton] at h
              rcases h with rfl | rfl | rfl | hfalse
              · simp [opTouches] at htouch
              · simp [opTouches] at htouch
              · simpa [opTouches, eq_comm] using htouch
              · simp at hfalse
            · by_cases h1 : env.stopOk n = true
              · rw [if_pos h1] at h
                rcases List.mem_append.1 h with h2 | h2
                · simp only [List.mem_singleton] at h2
                  subst h2
                  simpa [opTouches, eq_comm] using htouch
                · by_cases h3 : env.rmOk n = true
                  · rw [if_pos h3] at h2
                    rcases List.mem_append.1 h2 with h4 | h4
                    · simp only [List.mem_singleton] at h4
                      subst h4
                      simpa [opTouches, eq_comm] using htouch
                    · by_cases h5 : env.createOk n = true
                      · rw [if_pos h5] at h4
                        rcases List.mem_append.1 h4 with h6 | h6
                        · simp only [List.mem_singleton] at h6
                          subst h6
                          simpa [opTouches, eq_comm] using htouch
                        · by_cases h7 : env.startOk n = true
                          · rw [if_pos h7] at h6
                            by_cases h8 : env.cleanupOldImages = true
                            · rw [if_pos h8] at h6
                              simp only [List.mem_singleton] at h6
                              subst h6
                              simp [opTouches] at htouch
                            · rw [if_neg h8] at h6; simp at h6
                          · rw [if_neg h7] at h6; simp at h6
                      · rw [if_neg h5] at h4; simp at h4
                  · rw [if_neg h3] at h2; simp at h2
              · rw [if_neg h1] at h; simp at h

/-- When the pull yields the image id already recorded in the
inventory, the iteration only pulls: no stop, remove, create or
start. -/
theorem process_noop_when_same_id (inv : List ContainerRecord) (n : String)
    (env : UpdaterEnv) (cd : ContainerRecord)
    (hfind : findRecord inv n = some cd)
    (hpull : env.pullOf cd.image = some cd.imageId) :
    ∀ op ∈ processContainer inv n env, isDestructive op = false := by
  intro op hop
  unfold processContainer at hop
  simp only [hfind] at hop
  by_cases hloc : is_locally_built_image cd.image = true
  · rw [if_pos hloc] at hop
    simp at hop
  · rw [if_neg hloc] at hop
    simp only [hpull] at hop
    rw [if_pos trivial] at hop
    simp only [List.mem_singleton] at hop
    subst hop
    rfl

/-- When the live `update-approach` label is `notify`, the iteration
never issues a destructive operation, and when an update is available it
emits exactly the notification. -/
theorem process_notify (inv : List ContainerRecord) (n : String)
    (env : UpdaterEnv) (hap : env.approachOf n = some "notify") :
    (∀ op ∈ processContainer inv n env, isDestructive op = false)
    ∧ (∀ cd newId, findRecord inv n = some cd →
        is_locally_built_image cd.image = false →
        env.pullOf cd.image = some newId → newId ≠ cd.imageId →
        processContainer inv n env
          = [.pull cd.image, .notify n cd.imageId newId]) := by
  constructor
  · intro op hop
    unfold processContainer at hop
    rcases hfind : findRecord inv n with _ | cd
    · simp only [hfind] at hop; simp at hop
    · simp only [hfind] at hop
      by_cases hloc : is_locally_built_image cd.image = true
      · rw [if_pos hloc] at hop; simp at hop
      · rw [if_neg hloc] at hop
        rcases hpull : env.pullOf cd.image with _ | newId
        · simp only [hpull] at hop
          simp only [List.mem_singleton] at hop
          subst hop; rfl
        · simp only [hpull] at hop
          by_cases hsame : newId = cd.imageId
          · rw [if_pos hsame] at hop
            simp only [List.mem_singleton] at hop
            subst hop; rfl
          · rw [if_neg hsame] at hop
            rw [if_pos (show (env.approachOf n).getD "" = "notify" by
              rw [hap]; rfl)] at hop
            simp only [List.mem_cons, List.mem_singleton] at hop
            rcases hop with rfl | rfl | h
            · rfl
            · rfl
            · simp at h
  · intro cd newId hfind hloc hpull hne
    unfold processContainer
    simp only [hfind]
    rw [if_neg (by simp [hloc])]
    simp only [hpull]
    rw [if_neg (by simpa using hne)]
    rw [if_pos (show (env.approachOf n).getD "" = "notify" by rw [hap]; rfl)]

/-- When the pull fails, the iteration records the attempted pull and
nothing else. -/
theorem process_pull_failed (inv : List ContainerRecord) (n : String)
    (env : UpdaterEnv) (cd : ContainerRecord)
    (hfind : findRecord inv n = some cd)
    (hloc : is_locally_built_image cd.image = false)
    (hpull : env.pullOf cd.image = none) :
    processContainer inv n env = [.pull cd.image] := by
  unfold processContainer
  simp only [hfind]
  rw [if_neg (by simp [hloc])]
  simp only [hpull]

/-- Inventory names as docker writes them: a leading slash followed by a
nonempty, whitespace-free, slash-free body. -/
def WellNamed (inv : List ContainerRecord) : Prop :=
  ∀ c ∈ inv, ∃ rest, c.name.data = '/' :: rest ∧ rest ≠ []
    ∧ ∀ ch ∈ rest, wsChar ch = false

theorem strip_name_data {c : ContainerRecord} {rest : List Char}
    (hdata : c.name.data = '/' :: rest) :
    stripLeadingSlash c.name = String.mk rest := by
  unfold stripLeadingSlash
  rw [hdata]
  simp

theorem slash_strip_name {c : ContainerRecord} {rest : List Char}
    (hdata : c.name.data = '/' :: rest) :
    "/" ++ stripLeadingSlash c.name = c.name := by
  rw [strip_name_data hdata]
  apply str_ext
  rw [sdata_append, hdata]
  rfl

/-- With well-formed names the field splitting of the selected-name list
is the identity. -/
theorem selectedNames_eq (inv : List ContainerRecord) (hwn : WellNamed inv) :
    selectedNames inv
      = (inv.filter (fun cd => hasAutoUpdateLabelExact cd.labels)).map
          (fun cd => stripLeadingSlash cd.name) := by
  unfold selectedNames
  apply splitLines_eq
  intro x hx
  obtain ⟨c, hc, rfl⟩ := List.mem_map.1 hx
  have hcmem : c ∈ inv := List.mem_of_mem_filter hc
  obtain ⟨rest, hdata, hne, hws⟩ := hwn c hcmem
  rw [strip_name_data hdata]
  exact ⟨hne, hws⟩

theorem find?_name_of_nodup (l : List ContainerRecord)
    (hnd : (l.map (·.name)).Nodup) :
    ∀ c ∈ l, l.find? (fun cd => cd.name = c.name) = some c := by
  induction l with
  | nil => intro c h; simp at h
  | cons hd tl ih =>
    intro c hc
    rcases List.mem_cons.1 hc with h | h
    · subst h
      simp [List.find?]
    · have hne : hd.name ≠ c.name := by
        intro he
        have : c.name ∈ tl.map (·.name) := List.mem_map.2 ⟨c, h, rfl⟩
        rw [← he] at this
        exact (List.nodup_cons.1 hnd).1 this
      have htl := ih (List.nodup_cons.1 hnd).2 c h
      simp [List.find?, hne, htl]

theorem findRecord_strip_self (l : List ContainerRecord) (hwn : WellNamed l)
    (hnd : (l.map (·.name)).Nodup) (c : ContainerRecord) (hc : c ∈ l) :
    findRecord l (stripLeadingSlash c.name) = some c := by
  obtain ⟨rest, hdata, _, _⟩ := hwn c hc
  unfold findRecord
  simp only [slash_strip_name hdata]
  exact find?_name_of_nodup l hnd c hc

theorem findRecord_append (l₁ l₂ : List ContainerRecord) (n : String) :
    findRecord (l₁ ++ l₂) n
      = (findRecord l₁ n).or (findRecord l₂ n) := by
  unfold findRecord
  exact List.find?_append

theorem findRecord_none (l : List ContainerRecord) (n : String)
    (h : ∀ c ∈ l, c.name ≠ "/" ++ n) : findRecord l n = none := by
  unfold findRecord
  rw [List.find?_eq_none]
  intro c hc
  simp [h c hc]

/-- An iteration only reads the inventory through the name lookup. -/
theorem process_congr (inv inv' : List ContainerRecord) (n : String)
    (env : UpdaterEnv) (h : findRecord inv n = findRecord inv' n) :
    processContainer inv n env = processContainer inv' n env := by
  unfold processContainer
  rw [h]

theorem touches_destructive (op : DockerOp) (name : String) :
    opTouches op name = true → isDestructive op = true := by
  cases op <;> simp [opTouches, isDestructive]

/-- If the iteration for `name` issues no destructive operation, the
whole cycle issues no destructive operation on `name`. -/
theorem cycle_no_touch (inv : List ContainerRecord) (env : UpdaterEnv)
    (name : String)
    (hnone : ∀ op ∈ processContainer inv name env, isDestructive op = false) :
    ∀ op ∈ update_containers inv env, opTouches op name = false := by
  intro op hop
  cases htouch : opTouches op name with
  | false => rfl
  | true =>
    obtain ⟨n2, _, hop2⟩ := List.mem_flatMap.1 hop
    have hn2 := process_touches inv n2 name env op hop2 htouch
    subst hn2
    have h1 := hnone op hop2
    have h2 := touches_destructive op name htouch
    rw [h1] at h2
    exact absurd h2 (by simp)

theorem flatMap_congr_mem {α β : Type} {l : List α} {f g : α → List β}
    (h : ∀ x ∈ l, f x = g x) : l.flatMap f = l.flatMap g := by
  induction l with
  | nil => rfl
  | cons a l ih =>
    simp only [List.flatMap_cons, h a (by simp),
      ih (fun x hx => h x (by simp [hx]))]

/-- Splitting the cycle at one selected record: every other container's
iterations are exactly those it would get from its own segment of the
inventory. -/
theorem update_containers_split (l₁ l₂ : List ContainerRecord)
    (r : ContainerRecord) (env : UpdaterEnv)
    (hwn : WellNamed (l₁ ++ r :: l₂))
    (hnd : ((l₁ ++ r :: l₂).map (·.name)).Nodup)
    (hsel : hasAutoUpdateLabelExact r.labels = true) :
    update_containers (l₁ ++ r :: l₂) env
      = update_containers l₁ env
        ++ processContainer (l₁ ++ r :: l₂) (stripLeadingSlash r.name) env
        ++ update_containers l₂ env := by
  have hwn₁ : WellNamed l₁ := fun c hc => hwn c (by simp [hc])
  have hwn₂ : WellNamed l₂ := fun c hc => hwn c (by simp [hc])
  have hndmap : (l₁.map (·.name)).Nodup ∧ ((r :: l₂).map (·.name)).Nodup
      ∧ ∀ x ∈ l₁.map (·.name), x ∉ (r :: l₂).map (·.name) := by
    rw [List.map_append] at hnd
    rw [List.nodup_append] at hnd
    exact ⟨hnd.1, hnd.2.1, fun x hx => hnd.2.2 hx⟩
  have hnd₁ := hndmap.1
  have hnd₂ : (l₂.map (·.name)).Nodup := (List.nodup_cons.1 hndmap.2.1).2
  unfold update_containers
  rw [selectedNames_eq _ hwn, selectedNames_eq _ hwn₁, selectedNames_eq _ hwn₂,
    List.filter_append, List.filter_cons_of_pos (by simpa using hsel),
    List.map_append, List.map_cons, List.flatMap_append, List.flatMap_cons,
    List.append_assoc]
  congr 1
  · -- first segment: lookups resolve within l₁
    apply flatMap_congr_mem
    intro n hn
    obtain ⟨c, hcf, rfl⟩ := List.mem_map.1 hn
    have hc : c ∈ l₁ := List.mem_of_mem_filter hcf
    have h1 : findRecord l₁ (stripLeadingSlash c.name) = some c :=
      findRecord_strip_self l₁ hwn₁ hnd₁ c hc
    apply process_congr
    rw [findRecord_append, h1]
    rfl
  · congr 1
    -- third segment: lookups resolve within l₂
    apply flatMap_congr_mem
    intro n hn
    obtain ⟨c, hcf, rfl⟩ := List.mem_map.1 hn
    have hc : c ∈ l₂ := List.mem_of_mem_filter hcf
    obtain ⟨rest, hdata, _, _⟩ := hwn₂ c hc
    have hslash : "/" ++ stripLeadingSlash c.name = c.name := slash_strip_name hdata
    apply process_congr
    have hl₁ : findRecord l₁ (stripLeadingSlash c.name) = none := by
      apply findRecord_none
      intro c' hc' he
      rw [hslash] at he
      exact hndmap.2.2 c'.name (List.mem_map.2 ⟨c', hc', rfl⟩)
        (List.mem_map.2 ⟨c, by simp [hc], he.symm⟩)
    have hr : ¬(r.name = "/" ++ stripLeadingSlash c.name) := by
      intro he
      rw [hslash] at he
      exact (List.nodup_cons.1 hndmap.2.1).1
        (by simp only [he]; exact List.mem_map.2 ⟨c, hc, rfl⟩)
    rw [findRecord_append, hl₁]
    show (findRecord (r :: l₂) (stripLeadingSlash c.name)) = _
    unfold findRecord
    rw [List.find?_cons_of_neg _ (by simpa using hr)]

/-! ## Explicit argument vectors (C1, C6, C7)

The argument vector of the synthesized command, written out section by
section with the record's values appearing verbatim. -/

def networkTokens (r : ContainerRecord) : List String :=
  r.network.flatMap (fun nw =>
    if nw.1 = "bridge" && r.network.length > 1 then []
    else ["--network=" ++ nw.1]
      ++ match nw.2 with
         | some ip => if ip ≠ "" then ["--ip=" ++ ip] else []
         | none => [])

def portTokens (r : ContainerRecord) : List String :=
  r.ports.flatMap (fun p =>
    if p.1 ≠ "null" then
      (match p.2 with | some bs => bs | none => []).flatMap (fun b =>
        let binding := b.1 ++ ":" ++ b.2
        if binding = ":" then
          ["-p", cutFieldOne p.1 ++ "/" ++ cutFieldTwo p.1]
        else
          ["-p", binding ++ ":" ++ cutFieldOne p.1 ++ "/" ++ cutFieldTwo p.1])
    else [])

def restartTokens (r : ContainerRecord) : List String :=
  if r.restartPolicy.name ≠ "null" && r.restartPolicy.name ≠ "no" then
    if r.restartPolicy.maximumRetryCount ≠ 0
        && r.restartPolicy.name = "on-failure" then
      ["--restart=" ++ (r.restartPolicy.name ++ ":"
        ++ natToStr r.restartPolicy.maximumRetryCount)]
    else ["--restart=" ++ r.restartPolicy.name]
  else []

def hostTokens (r : ContainerRecord) : List String :=
  (if r.hostConfig.privileged then ["--privileged"] else [])
  ++ r.hostConfig.capAdd.map (fun cap => "--cap-add=" ++ cap)
  ++ r.hostConfig.capDrop.map (fun cap => "--cap-drop=" ++ cap)
  ++ r.hostConfig.dns.map (fun dns => "--dns=" ++ dns)
  ++ r.hostConfig.dnsSearch.map (fun dns => "--dns-search=" ++ dns)
  ++ r.hostConfig.extraHosts.map (fun host => "--add-host=" ++ host)
  ++ (if r.hostConfig.logConfig.type ≠ "null"
        && r.hostConfig.logConfig.type ≠ "json-file" then
        ["--log-driver=" ++ r.hostConfig.logConfig.type]
        ++ r.hostConfig.logConfig.config.map
            (fun kv => "--log-opt=" ++ (kv.1 ++ "=" ++ kv.2))
      else [])

theorem map_content_flatMap {α : Type} (f : α → List (List Seg))
    (g : α → List String) (l : List α)
    (h : ∀ x, (f x).map atomContent = g x) :
    (l.flatMap f).map atomContent = l.flatMap g := by
  induction l with
  | nil => rfl
  | cons a l ih => simp only [List.flatMap_cons, List.map_append, h a, ih]


theorem mapc_plainq (pre : String) (l : List String) :
    List.map atomContent (l.map (fun s => [Seg.plain pre, Seg.dquote s]))
      = l.map (fun s => pre ++ s) := by
  induction l with
  | nil => rfl
  | cons a l ih =>
    rw [List.map_cons, List.map_cons, List.map_cons, ih]
    rfl

theorem mapc_plain_list (l : List String) :
    List.map atomContent (l.map (fun arg => [Seg.plain arg])) = l := by
  induction l with
  | nil => rfl
  | cons a l ih =>
    rw [List.map_cons, List.map_cons, ih]
    rfl

/-- `createTokens` written out: every environment entry, label, mount,
port binding and command word appears verbatim in the argument vector. -/
theorem createTokens_explicit (n : String) (r : ContainerRecord) :
    createTokens n r
      = ["docker", "create", "--name", n]
        ++ networkTokens r
        ++ portTokens r
        ++ r.mounts.flatMap (fun m =>
            ["-v", m.source ++ ":" ++ m.destination ++ ":" ++ m.mode])
        ++ r.env.flatMap (fun e => ["-e", e])
        ++ r.labels.flatMap (fun kv => ["--label", kv.1 ++ "=" ++ kv.2])
        ++ restartTokens r
        ++ hostTokens r
        ++ [r.image]
        ++ r.command := by
  have hname : List.map atomContent
      [[Seg.plain "--name"], [Seg.dquote n]] = ["--name", n] := rfl
  have hnet : List.map atomContent (r.network.flatMap (fun nw =>
      if nw.1 = "bridge" && r.network.length > 1 then []
      else [[Seg.plain "--network=", Seg.dquote nw.1]]
        ++ match nw.2 with
           | some ip =>
               if ip ≠ "" then [[Seg.plain "--ip=", Seg.dquote ip]] else []
           | none => [])) = networkTokens r := by
    unfold networkTokens
    apply map_content_flatMap
    intro nw
    obtain ⟨nm, nip⟩ := nw
    by_cases hb : (nm = "bridge" && r.network.length > 1) = true
    · rw [if_pos hb, if_pos hb]; rfl
    · rw [if_neg hb, if_neg hb]
      cases nip with
      | none => rfl
      | some ip =>
        show List.map atomContent
            ([[Seg.plain "--network=", Seg.dquote nm]]
              ++ (if ip ≠ "" then [[Seg.plain "--ip=", Seg.dquote ip]] else []))
          = ["--network=" ++ nm] ++ (if ip ≠ "" then ["--ip=" ++ ip] else [])
        by_cases hip : ip ≠ ""
        · rw [if_pos hip, if_pos hip]; rfl
        · rw [if_neg hip, if_neg hip]; rfl
  have hport : List.map atomContent (r.ports.flatMap (fun p =>
      if p.1 ≠ "null" then
        (match p.2 with | some bs => bs | none => []).flatMap (fun b =>
          let binding := b.1 ++ ":" ++ b.2
          if binding = ":" then
            [[Seg.plain "-p"],
             [Seg.plain (cutFieldOne p.1 ++ "/" ++ cutFieldTwo p.1)]]
          else
            [[Seg.plain "-p"],
             [Seg.plain (binding ++ ":" ++ cutFieldOne p.1 ++ "/"
               ++ cutFieldTwo p.1)]])
      else [])) = portTokens r := by
    unfold portTokens
    apply map_content_flatMap
    intro p
    obtain ⟨pk, pbs⟩ := p
    by_cases hn : pk ≠ "null"
    · rw [if_pos hn, if_pos hn]
      cases pbs with
      | none => rfl
      | some bs =>
        show List.map atomContent (bs.flatMap (fun b =>
            let binding := b.1 ++ ":" ++ b.2
            if binding = ":" then
              [[Seg.plain "-p"],
               [Seg.plain (cutFieldOne pk ++ "/" ++ cutFieldTwo pk)]]
            else
              [[Seg.plain "-p"],
               [Seg.plain (binding ++ ":" ++ cutFieldOne pk ++ "/"
                 ++ cutFieldTwo pk)]]))
          = bs.flatMap (fun b =>
            let binding := b.1 ++ ":" ++ b.2
            if binding = ":" then
              ["-p", cutFieldOne pk ++ "/" ++ cutFieldTwo pk]
            else
              ["-p", binding ++ ":" ++ cutFieldOne pk ++ "/" ++ cutFieldTwo pk])
        apply map_content_flatMap
        intro b
        show List.map atomContent
            (if b.1 ++ ":" ++ b.2 = ":" then
              [[Seg.plain "-p"],
               [Seg.plain (cutFieldOne pk ++ "/" ++ cutFieldTwo pk)]]
            else
              [[Seg.plain "-p"],
               [Seg.plain (b.1 ++ ":" ++ b.2 ++ ":" ++ cutFieldOne pk ++ "/"
                 ++ cutFieldTwo pk)]])
          = if b.1 ++ ":" ++ b.2 = ":" then
              ["-p", cutFieldOne pk ++ "/" ++ cutFieldTwo pk]
            else
              ["-p", b.1 ++ ":" ++ b.2 ++ ":" ++ cutFieldOne pk ++ "/"
                ++ cutFieldTwo pk]
        by_cases hcol : b.1 ++ ":" ++ b.2 = ":"
        · rw [if_pos hcol, if_pos hcol]; rfl
        · rw [if_neg hcol, if_neg hcol]; rfl
    · rw [if_neg hn, if_neg hn]; rfl
  have hvol : List.map atomContent (r.mounts.flatMap (fun m =>
      [[Seg.plain "-v"],
       [Seg.dquote (m.source ++ ":" ++ m.destination ++ ":" ++ m.mode)]]))
      = r.mounts.flatMap (fun m =>
        ["-v", m.source ++ ":" ++ m.destination ++ ":" ++ m.mode]) := by
    apply map_content_flatMap
    intro m
    rfl
  have henv : List.map atomContent
      (r.env.flatMap (fun e => [[Seg.plain "-e"], [Seg.squote e]]))
      = r.env.flatMap (fun e => ["-e", e]) := by
    apply map_content_flatMap
    intro e
    rfl
  have hlab : List.map atomContent (r.labels.flatMap (fun kv =>
      [[Seg.plain "--label"], [Seg.dquote (kv.1 ++ "=" ++ kv.2)]]))
      = r.labels.flatMap (fun kv => ["--label", kv.1 ++ "=" ++ kv.2]) := by
    apply map_content_flatMap
    intro kv
    rfl
  have hres : List.map atomContent
      (if r.restartPolicy.name ≠ "null" && r.restartPolicy.name ≠ "no" then
        if r.restartPolicy.maximumRetryCount ≠ 0
            && r.restartPolicy.name = "on-failure" then
          [[Seg.plain "--restart=",
            Seg.dquote (r.restartPolicy.name ++ ":"
              ++ natToStr r.restartPolicy.maximumRetryCount)]]
        else [[Seg.plain "--restart=", Seg.dquote r.restartPolicy.name]]
      else []) = restartTokens r := by
    unfold restartTokens
    by_cases h1 : (r.restartPolicy.name ≠ "null"
        && r.restartPolicy.name ≠ "no") = true
    · rw [if_pos h1, if_pos h1]
      by_cases h2 : (r.restartPolicy.maximumRetryCount ≠ 0
          && r.restartPolicy.name = "on-failure") = true
      · rw [if_pos h2, if_pos h2]; rfl
      · rw [if_neg h2, if_neg h2]; rfl
    · rw [if_neg h1, if_neg h1]; rfl
  have hpriv : List.map atomContent
      (if r.hostConfig.privileged then [[Seg.plain "--privileged"]] else [])
      = (if r.hostConfig.privileged then ["--privileged"] else []) := by
    by_cases h : r.hostConfig.privileged = true
    · rw [if_pos h, if_pos h]; rfl
    · rw [if_neg h, if_neg h]; rfl
  have hlog : List.map atomContent
      (if r.hostConfig.logConfig.type ≠ "null"
          && r.hostConfig.logConfig.type ≠ "json-file" then
        [[Seg.plain "--log-driver=", Seg.dquote r.hostConfig.logConfig.type]]
        ++ r.hostConfig.logConfig.config.map
            (fun kv => [Seg.plain "--log-opt=",
              Seg.dquote (kv.1 ++ "=" ++ kv.2)])
      else [])
      = (if r.hostConfig.logConfig.type ≠ "null"
          && r.hostConfig.logConfig.type ≠ "json-file" then
        ["--log-driver=" ++ r.hostConfig.logConfig.type]
        ++ r.hostConfig.logConfig.config.map
            (fun kv => "--log-opt=" ++ (kv.1 ++ "=" ++ kv.2))
      else []) := by
    by_cases h : (r.hostConfig.logConfig.type ≠ "null"
        && r.hostConfig.logConfig.type ≠ "json-file") = true
    · rw [if_pos h, if_pos h, List.map_append]
      congr 1
      induction r.hostConfig.logConfig.config with
      | nil => rfl
      | cons a l ih =>
        rw [List.map_cons, List.map_cons, List.map_cons, ih]
        rfl
    · rw [if_neg h, if_neg h]; rfl
  have himg : List.map atomContent [[Seg.dquote r.image]] = [r.image] := rfl
  unfold createTokens createUnits hostTokens
  simp only [List.map_append]
  rw [hname, hnet, hport, hvol, henv, hlab, hres, hpriv,
    mapc_plainq "--cap-add=" r.hostConfig.capAdd,
    mapc_plainq "--cap-drop=" r.hostConfig.capDrop,
    mapc_plainq "--dns=" r.hostConfig.dns,
    mapc_plainq "--dns-search=" r.hostConfig.dnsSearch,
    mapc_plainq "--add-host=" r.hostConfig.extraHosts,
    hlog, himg, mapc_plain_list r.command]
  simp only [List.append_assoc, List.cons_append, List.nil_append]

/-! ## The restart policy the created container ends up with (C7) -/

theorem restart_drop (s : String) :
    String.mk (("--restart=" ++ s).data.drop 10) = s := by
  rw [sdata_append]
  rw [show "--restart=".data
    = ['-', '-', 'r', 'e', 's', 't', 'a', 'r', 't', '='] from rfl]
  show String.mk s.data = s
  cases s
  rfl

/-- The restart policy of the recreated container: the value of the
synthesized `--restart` flag, or the engine default `no` when the
section synthesizes no flag. -/
def appliedRestartPolicy (r : ContainerRecord) : String :=
  match restartTokens r with
  | [] => "no"
  | t :: _ => String.mk (t.data.drop 10)

/-! ## Concrete instances used by the witnesses and counterexamples -/

/-- A shell-clean auto-update container record, parametrised by its
restart policy. -/
def sampleWith (rp : RestartPolicy) : ContainerRecord :=
  ⟨"cid1", "/app", "img:1", "id1", ["run", "--fast"], [],
   [("auto-update", "true")], ["A=1"], [], [], [], rp,
   ⟨false, [], [], [], [], [], ⟨"json-file", []⟩⟩⟩

def sampleRecord : ContainerRecord := sampleWith ⟨"on-failure", 3⟩

theorem sampleWith_clean (rp : RestartPolicy) (h : cleanStr rp.name) :
    CleanRecord "app" (sampleWith rp) := by
  constructor
  · show cleanStr "app"
    decide
  · intro nw hnw
    exact absurd hnw (List.not_mem_nil _)
  · show List.Nodup ([] : List String)
    exact List.nodup_nil
  · intro p hp
    exact absurd hp (List.not_mem_nil _)
  · show List.Nodup ([] : List String)
    exact List.nodup_nil
  · intro m hm
    exact absurd hm (List.not_mem_nil _)
  · show ∀ e ∈ ["A=1"], cleanStr e
    decide
  · show ∀ kv ∈ [(("auto-update" : String), ("true" : String))],
      cleanStr kv.1 ∧ cleanStr kv.2
    decide
  · exact h
  · intro c hc
    exact absurd hc (List.not_mem_nil _)
  · intro c hc
    exact absurd hc (List.not_mem_nil _)
  · intro d hd
    exact absurd hd (List.not_mem_nil _)
  · intro d hd
    exact absurd hd (List.not_mem_nil _)
  · intro x hx
    exact absurd hx (List.not_mem_nil _)
  · show cleanStr "json-file"
    decide
  · intro kv hkv
    exact absurd hkv (List.not_mem_nil _)
  · show ∀ a ∈ ["run", "--fast"], cleanStr a ∧ a.data ≠ []
    decide
  · show cleanStr "img:1"
    decide

theorem sampleRecord_clean : CleanRecord "app" sampleRecord :=
  sampleWith_clean ⟨"on-failure", 3⟩ (by decide)

theorem sampleWith_wellNamed (rp : RestartPolicy) :
    WellNamed [sampleWith rp] := by
  intro c hc
  have h := List.mem_singleton.1 hc
  subst h
  exact ⟨['a', 'p', 'p'], rfl, by decide, by decide⟩

/-- A record whose environment value contains a space (C1). -/
def spacedEnvRecord : ContainerRecord :=
  ⟨"cid2", "/web", "img:2", "id9", [], [], [("auto-update", "true")],
   ["GREETING=hello world"], [], [], [], ⟨"no", 0⟩,
   ⟨false, [], [], [], [], [], ⟨"json-file", []⟩⟩⟩

/-- A record carrying an entrypoint override (C6). -/
def entryRecord : ContainerRecord :=
  ⟨"cid3", "/svc", "img:3", "id3", ["serve"], ["/custom-entry"],
   [("auto-update", "true")], [], [], [], [], ⟨"no", 0⟩,
   ⟨false, [], [], [], [], [], ⟨"json-file", []⟩⟩⟩

/-- A running container with a clean auto-update label (C2). -/
def lcTrue : LiveContainer := ⟨"c1", [("auto-update", "true")]⟩

/-- A running container whose label value contains a recognized word
only after field splitting (C2). -/
def lcSpace : LiveContainer := ⟨"abc", [("note", "please auto-update=true")]⟩

/-- Oracle: the pull resolves to the image id already on record. -/
def envSameId : UpdaterEnv :=
  ⟨fun i => if i = "img:1" then some "id1" else none,
   fun _ => none, fun _ => true, fun _ => true, fun _ => true,
   fun _ => true, false⟩

/-- Oracle: an update is available and the live label says notify. -/
def envNotify : UpdaterEnv :=
  ⟨fun i => if i = "img:1" then some "id2" else none,
   fun m => if m = "app" then some "notify" else none,
   fun _ => true, fun _ => true, fun _ => true, fun _ => true, false⟩

/-- Oracle: every pull fails. -/
def envPullFail : UpdaterEnv :=
  ⟨fun _ => none, fun _ => none, fun _ => true, fun _ => true,
   fun _ => true, fun _ => true, false⟩

/-- A webhook request carrying no credential at all (C10). -/
def reqBare : WebhookRequest := ⟨none, none, none, none, "{}"⟩

/-! ## Claim theorems -/

/-- C5 The provenance classifiers against the rule: no `/` separator
but at least one `_` or `-`.  The updater script classifier implements
the rule exactly; the web service classifier, whose `&&` binds tighter
than its `||`, agrees with the rule only on references without `_`. -/
theorem c5_classifier_rule :
    (∀ s, is_locally_built_image s = specLocallyBuiltRule s)
    ∧ (∀ s, s.data.contains '_' = false →
        js_checkForUpdates_isLocallyBuilt s = specLocallyBuiltRule s) := by
  refine ⟨is_locally_built_image_spec, ?_⟩
  intro s hu
  unfold js_checkForUpdates_isLocallyBuilt specLocallyBuiltRule
  rw [hu]
  cases hd : s.data.contains '-' <;> cases hs : s.data.contains '/' <;> simp

/-- The two classifier implementations disagree on a registry path with
an underscore: the web service calls it locally built, the updater
script and the rule do not. -/
theorem c5_cex :
    js_checkForUpdates_isLocallyBuilt "user/my_app" = true
    ∧ is_locally_built_image "user/my_app" = false
    ∧ specLocallyBuiltRule "user/my_app" = false := by decide

theorem c5_witness :
    is_locally_built_image "my_app" = specLocallyBuiltRule "my_app"
    ∧ js_checkForUpdates_isLocallyBuilt "nginx-proxy"
        = specLocallyBuiltRule "nginx-proxy" :=
  ⟨c5_classifier_rule.1 "my_app", c5_classifier_rule.2 "nginx-proxy" (by decide)⟩

/-- C2 Inventory membership after `document_containers`: for label sets
that are whitespace-free, with `=`-free and pairwise distinct keys, a
running container is documented iff it is not the updater itself and
carries one of the four recognized auto-update labels with value
`"true"`. -/
theorem c2_inventory_iff (running : List LiveContainer) (selfId : String)
    (hclean : ∀ c ∈ running, ∀ kv ∈ c.labels, cleanStr kv.1 ∧ cleanStr kv.2)
    (hkeq : ∀ c ∈ running, ∀ kv ∈ c.labels, '=' ∉ kv.1.data)
    (hnd : ∀ c ∈ running, (c.labels.map (·.1)).Nodup) :
    ∀ c, c ∈ document_containers running selfId
      ↔ c ∈ running ∧ c.id ≠ selfId ∧ hasAutoUpdateLabelExact c.labels = true := by
  intro c
  unfold document_containers
  rw [List.mem_filter]
  constructor
  · rintro ⟨hmem, hpred⟩
    simp only [Bool.and_eq_true, decide_eq_true_eq] at hpred
    exact ⟨hmem, hpred.1, by
      rw [← documentLabelCheck_eq_exact c.labels (hclean c hmem) (hkeq c hmem)
        (hnd c hmem)]
      exact hpred.2⟩
  · rintro ⟨hmem, hid, hlab⟩
    refine ⟨hmem, ?_⟩
    simp only [Bool.and_eq_true, decide_eq_true_eq]
    exact ⟨hid, by
      rw [documentLabelCheck_eq_exact c.labels (hclean c hmem) (hkeq c hmem)
        (hnd c hmem)]
      exact hlab⟩

/-- A container whose only auto-update-like text sits inside a label
value is documented by the word-split scan although it carries no
recognized label with value true. -/
theorem c2_cex :
    lcSpace ∈ document_containers [lcSpace] "self"
    ∧ hasAutoUpdateLabelExact lcSpace.labels = false := by decide

theorem c2_witness :
    lcTrue ∈ document_containers [lcTrue] "self"
      ↔ lcTrue ∈ [lcTrue] ∧ lcTrue.id ≠ "self"
        ∧ hasAutoUpdateLabelExact lcTrue.labels = true :=
  c2_inventory_iff [lcTrue] "self" (by decide) (by decide) (by decide) lcTrue

/-- C3 A container whose pulled image id equals the id on record is a
no-op update: the scheduled cycle issues no stop, remove, create or
start on it, and the web `updateContainer` path reports success without
handing off to the update script. -/
theorem c3_same_id_noop (inv : List ContainerRecord) (n : String)
    (env : UpdaterEnv) (cd : ContainerRecord)
    (hfind : findRecord inv n = some cd)
    (hpull : env.pullOf cd.image = some cd.imageId) :
    (∀ op ∈ update_containers inv env, opTouches op n = false)
    ∧ (∀ (pullOk : String → Bool) (inspectId : String → Option String)
        (wc : WebContainer),
        (js_getInventoryContainers inv).find? (fun c => c.name = n) = some wc →
        js_hasAutoUpdateLabel wc.labels = true →
        pullOk wc.image = true →
        inspectId wc.image = some wc.imageId →
        js_updateContainer inv n pullOk inspectId
          = (.ok ⟨true,
              "No update needed - container is already running the latest image",
              false⟩,
             [.pull wc.image, .inspectImage wc.image])) := by
  constructor
  · exact cycle_no_touch inv env n (process_noop_when_same_id inv n env cd hfind hpull)
  · intro pullOk inspectId wc hfindw hlab hpl hins
    unfold js_updateContainer
    simp only [hfindw]
    rw [if_neg (by simp [hlab])]
    rw [if_neg (by simp [hpl])]
    simp only [hins]
    rw [if_pos trivial]

theorem c3_witness :
    js_updateContainer [sampleRecord] "app" (fun _ => true)
        (fun i => if i = "img:1" then some "id1" else none)
      = (.ok ⟨true,
          "No update needed - container is already running the latest image",
          false⟩,
         [.pull "img:1", .inspectImage "img:1"]) := by
  have h := (c3_same_id_noop [sampleRecord] "app" envSameId sampleRecord
      (by decide) (by decide)).2
    (fun _ => true) (fun i => if i = "img:1" then some "id1" else none)
    ⟨"cid1", "app", "img:1", "id1", [("auto-update", "true")]⟩
    (by decide) (by decide) (by decide) (by decide)
  exact h

/-- C4 A container whose live `update-approach` label reads `notify` is
never touched destructively by the cycle; when an update is available
its iteration is exactly a pull followed by the notification carrying
the container name, the current image id and the candidate image id. -/
theorem c4_notify_never_recreates (inv : List ContainerRecord) (n : String)
    (env : UpdaterEnv) (hap : env.approachOf n = some "notify") :
    (∀ op ∈ update_containers inv env, opTouches op n = false)
    ∧ (∀ cd newId, findRecord inv n = some cd →
        is_locally_built_image cd.image = false →
        env.pullOf cd.image = some newId → newId ≠ cd.imageId →
        processContainer inv n env
          = [.pull cd.image, .notify n cd.imageId newId]
        ∧ (n ∈ selectedNames inv →
            DockerOp.notify n cd.imageId newId ∈ update_containers inv env)) := by
  obtain ⟨hnd, hnotif⟩ := process_notify inv n env hap
  refine ⟨cycle_no_touch inv env n hnd, ?_⟩
  intro cd newId hfind hloc hpull hne
  have htrace := hnotif cd newId hfind hloc hpull hne
  refine ⟨htrace, fun hsel => ?_⟩
  exact List.mem_flatMap.2 ⟨n, hsel, by rw [htrace]; simp⟩

theorem c4_witness :
    processContainer [sampleRecord] "app" envNotify
      = [.pull "img:1", .notify "app" "id1" "id2"]
    ∧ DockerOp.notify "app" "id1" "id2" ∈ update_containers [sampleRecord] envNotify := by
  have h := (c4_notify_never_recreates [sampleRecord] "app" envNotify
      (by decide)).2 sampleRecord "id2" (by decide) (by decide) (by decide)
      (by decide)
  exact ⟨h.1, h.2 (by decide)⟩

/-- C8 A failed pull is non-fatal and isolated: the failing container
contributes only its attempted pull, no recreation is attempted on it,
the other containers receive exactly the iterations of their own
segments, and on the web side `checkImageUpdateStatus` degrades every
call to a no-update-available error status while `updateContainer`
stops at the failed pull. -/
theorem c8_pull_failure_isolated (l₁ l₂ : List ContainerRecord)
    (r : ContainerRecord) (env : UpdaterEnv)
    (hwn : WellNamed (l₁ ++ r :: l₂))
    (hnd : ((l₁ ++ r :: l₂).map (·.name)).Nodup)
    (hsel : hasAutoUpdateLabelExact r.labels = true)
    (hloc : is_locally_built_image r.image = false)
    (hpull : env.pullOf r.image = none) :
    update_containers (l₁ ++ r :: l₂) env
      = update_containers l₁ env ++ [.pull r.image] ++ update_containers l₂ env
    ∧ (∀ op ∈ update_containers (l₁ ++ r :: l₂) env,
        opTouches op (stripLeadingSlash r.name) = false)
    ∧ (∀ (wc : WebContainer) (inspectId : String → Option String)
        (pullOk : String → Bool),
        (js_checkImageUpdateStatus wc inspectId pullOk).updateAvailable = false
        ∧ (js_checkImageUpdateStatus wc inspectId pullOk).error ≠ none)
    ∧ (∀ (inv : List ContainerRecord) (n2 : String)
        (pullOk : String → Bool) (inspectId : String → Option String)
        (wc : WebContainer),
        (js_getInventoryContainers inv).find? (fun c => c.name = n2) = some wc →
        js_hasAutoUpdateLabel wc.labels = true →
        pullOk wc.image = false →
        js_updateContainer inv n2 pullOk inspectId
          = (.error "docker pull failed", [.pull wc.image])) := by
  have hmem : r ∈ l₁ ++ r :: l₂ := by simp
  have hfind := findRecord_strip_self _ hwn hnd r hmem
  have hproc := process_pull_failed _ (stripLeadingSlash r.name) env r hfind hloc hpull
  refine ⟨?_, ?_, ?_, ?_⟩
  · rw [update_containers_split l₁ l₂ r env hwn hnd hsel, hproc]
  · apply cycle_no_touch
    intro op hop
    rw [hproc] at hop
    simp only [List.mem_singleton] at hop
    subst hop
    rfl
  · intro wc inspectId pullOk
    unfold js_checkImageUpdateStatus
    cases inspectId wc.image <;> exact ⟨rfl, by simp⟩
  · intro inv n2 pullOk inspectId wc hfindw hlab hpf
    unfold js_updateContainer
    simp only [hfindw]
    rw [if_neg (by simp [hlab]), if_pos (by simp [hpf])]

theorem c8_witness :
    update_containers [sampleRecord] envPullFail = [DockerOp.pull "img:1"] := by
  have h := (c8_pull_failure_isolated [] [] sampleRecord envPullFail
    (by
      intro c hc
      have h2 := List.mem_singleton.1 hc
      subst h2
      exact ⟨['a', 'p', 'p'], rfl, by decide, by decide⟩)
    (by decide) (by decide) (by decide) rfl).1
  exact h

/-- C1 For shell-clean records (no whitespace, quote or backslash
characters and no expansion-triggering characters such as dollar,
backtick, glob or tilde in the recorded values, so that `eval` performs
no expansion on them), the synthesized create command tokenizes to an
argument vector carrying every port binding, volume mount, environment
entry and label byte-for-byte, with the recorded image reference as the
target. -/
theorem c1_create_preserves_config (n : String) (r : ContainerRecord)
    (h : CleanRecord n r) :
    shellTokenize (buildCreateCommand n r)
      = ["docker", "create", "--name", n]
        ++ networkTokens r
        ++ portTokens r
        ++ r.mounts.flatMap (fun m =>
            ["-v", m.source ++ ":" ++ m.destination ++ ":" ++ m.mode])
        ++ r.env.flatMap (fun e => ["-e", e])
        ++ r.labels.flatMap (fun kv => ["--label", kv.1 ++ "=" ++ kv.2])
        ++ restartTokens r
        ++ hostTokens r
        ++ [r.image]
        ++ r.command :=
  (tokenize_build n r h).trans (createTokens_explicit n r)

set_option maxRecDepth 100000 in
/-- An environment value containing a space is not preserved: the
word-splitting of the unquoted jq fragment injects a stray `-e` into
the value the recreated container receives. -/
theorem c1_cex :
    "GREETING=hello world" ∉ shellTokenize (buildCreateCommand "web" spacedEnvRecord)
    ∧ "GREETING=hello -e world" ∈ shellTokenize (buildCreateCommand "web" spacedEnvRecord) := by
  decide

theorem c1_witness :
    shellTokenize (buildCreateCommand "app" sampleRecord)
      = ["docker", "create", "--name", "app"]
        ++ networkTokens sampleRecord
        ++ portTokens sampleRecord
        ++ sampleRecord.mounts.flatMap (fun m =>
            ["-v", m.source ++ ":" ++ m.destination ++ ":" ++ m.mode])
        ++ sampleRecord.env.flatMap (fun e => ["-e", e])
        ++ sampleRecord.labels.flatMap (fun kv => ["--label", kv.1 ++ "=" ++ kv.2])
        ++ restartTokens sampleRecord
        ++ hostTokens sampleRecord
        ++ [sampleRecord.image]
        ++ sampleRecord.command :=
  c1_create_preserves_config "app" sampleRecord sampleRecord_clean

/-- C6 For shell-clean records (values free of whitespace, quotes,
backslash and of expansion-triggering characters such as dollar,
backtick, glob or tilde, so that `eval` performs no expansion on them)
the synthesized command targets the recorded image reference (the
reference whose fresh id was just pulled) and reapplies the recorded
command override as the trailing words; the recorded entrypoint
override is never consulted: the synthesized command is independent of
it. -/
theorem c6_image_and_command (n : String) (r : ContainerRecord)
    (h : CleanRecord n r) :
    shellTokenize (buildCreateCommand n r)
      = (["docker", "create", "--name", n]
          ++ networkTokens r
          ++ portTokens r
          ++ r.mounts.flatMap (fun m =>
              ["-v", m.source ++ ":" ++ m.destination ++ ":" ++ m.mode])
          ++ r.env.flatMap (fun e => ["-e", e])
          ++ r.labels.flatMap (fun kv => ["--label", kv.1 ++ "=" ++ kv.2])
          ++ restartTokens r
          ++ hostTokens r)
        ++ [r.image] ++ r.command
    ∧ ∀ ep, buildCreateCommand n { r with entrypoint := ep }
        = buildCreateCommand n r :=
  ⟨(tokenize_build n r h).trans (createTokens_explicit n r),
   fun _ => rfl⟩

set_option maxRecDepth 100000 in
/-- A recorded entrypoint override never reaches the synthesized
command: no `--entrypoint` flag and no trace of the override value. -/
theorem c6_cex :
    entryRecord.entrypoint = ["/custom-entry"]
    ∧ "--entrypoint" ∉ shellTokenize (buildCreateCommand "svc" entryRecord)
    ∧ "/custom-entry" ∉ shellTokenize (buildCreateCommand "svc" entryRecord) := by
  decide

theorem c6_witness :
    buildCreateCommand "app" { sampleRecord with entrypoint := ["/e"] }
      = buildCreateCommand "app" sampleRecord :=
  (c6_image_and_command "app" sampleRecord sampleRecord_clean).2 ["/e"]

/-- C7 The restart policy of the recreated container: the synthesized
tokens carry exactly the `restartTokens` section, an `on-failure`
policy with nonzero retry count keeps its count, a `no` policy
synthesizes no flag and leaves the engine default `no`, and any other
named policy is reproduced verbatim. -/
theorem c7_restart_reproduced (n : String) (r : ContainerRecord)
    (h : CleanRecord n r) :
    (shellTokenize (buildCreateCommand n r)
      = (["docker", "create", "--name", n]
          ++ networkTokens r
          ++ portTokens r
          ++ r.mounts.flatMap (fun m =>
              ["-v", m.source ++ ":" ++ m.destination ++ ":" ++ m.mode])
          ++ r.env.flatMap (fun e => ["-e", e])
          ++ r.labels.flatMap (fun kv => ["--label", kv.1 ++ "=" ++ kv.2]))
        ++ restartTokens r
        ++ (hostTokens r ++ [r.image] ++ r.command))
    ∧ (r.restartPolicy.name = "on-failure" → r.restartPolicy.maximumRetryCount ≠ 0 →
        restartTokens r
          = ["--restart=" ++ ("on-failure" ++ ":"
              ++ natToStr r.restartPolicy.maximumRetryCount)]
        ∧ appliedRestartPolicy r
          = "on-failure" ++ ":" ++ natToStr r.restartPolicy.maximumRetryCount)
    ∧ (r.restartPolicy.name = "no" →
        restartTokens r = [] ∧ appliedRestartPolicy r = "no")
    ∧ (r.restartPolicy.name ≠ "null" → r.restartPolicy.name ≠ "no" →
        (r.restartPolicy.maximumRetryCount = 0 ∨ r.restartPolicy.name ≠ "on-failure") →
        restartTokens r = ["--restart=" ++ r.restartPolicy.name]
        ∧ appliedRestartPolicy r = r.restartPolicy.name) := by
  refine ⟨?_, ?_, ?_, ?_⟩
  · rw [(tokenize_build n r h).trans (createTokens_explicit n r)]
    simp only [List.append_assoc]
  · intro h1 h2
    have htok : restartTokens r
        = ["--restart=" ++ ("on-failure" ++ ":"
            ++ natToStr r.restartPolicy.maximumRetryCount)] := by
      unfold restartTokens
      rw [if_pos (by simp [h1]), if_pos (by simp [h1, h2]), h1]
    refine ⟨htok, ?_⟩
    unfold appliedRestartPolicy
    rw [htok]
    exact restart_drop _
  · intro h1
    have htok : restartTokens r = [] := by
      unfold restartTokens
      rw [if_neg (by simp [h1])]
    refine ⟨htok, ?_⟩
    unfold appliedRestartPolicy
    rw [htok]
  · intro h1 h2 h3
    have htok : restartTokens r = ["--restart=" ++ r.restartPolicy.name] := by
      unfold restartTokens
      rw [if_pos (by simp [h1, h2])]
      rcases h3 with h3 | h3
      · rw [if_neg (by simp [h3])]
      · rw [if_neg (by simp [h3])]
    refine ⟨htok, ?_⟩
    unfold appliedRestartPolicy
    rw [htok]
    exact restart_drop _

theorem c7_witness :
    (restartTokens sampleRecord
        = ["--restart=" ++ ("on-failure" ++ ":" ++ natToStr 3)]
      ∧ appliedRestartPolicy sampleRecord = "on-failure" ++ ":" ++ natToStr 3)
    ∧ (restartTokens (sampleWith ⟨"no", 0⟩) = []
      ∧ appliedRestartPolicy (sampleWith ⟨"no", 0⟩) = "no") :=
  ⟨(c7_restart_reproduced "app" sampleRecord sampleRecord_clean).2.1 rfl
      (by decide),
   (c7_restart_reproduced "app" (sampleWith ⟨"no", 0⟩)
      (sampleWith_clean ⟨"no", 0⟩ (by decide))).2.2.1 rfl⟩

/-- C9 An authenticated webhook call runs exactly the manual update
path: the handlers dispatch on the same `updateContainer` call, the
update is refused (500, no effect) when the named container lacks a
recognized auto-update label, and a successful update hands the
container name to the update script. -/
theorem c9_webhook_same_as_manual (auth : AuthResult) (m : String)
    (hauth : auth = AuthResult.next m)
    (inv : List ContainerRecord) (n : String)
    (pullOk : String → Bool) (inspectId : String → Option String) :
    webhookRoute auth inv n pullOk inspectId
      = manualUpdateRoute inv n pullOk inspectId
    ∧ (∀ wc, (js_getInventoryContainers inv).find? (fun c => c.name = n) = some wc →
        js_hasAutoUpdateLabel wc.labels = false →
        webhookRoute auth inv n pullOk inspectId = (⟨500, false⟩, []))
    ∧ (∀ res eff, js_updateContainer inv n pullOk inspectId = (.ok res, eff) →
        res.updated = true → WebEffect.runUpdateScript n ∈ eff) := by
  subst hauth
  refine ⟨?_, ?_, ?_⟩
  · unfold webhookRoute manualUpdateRoute
    cases hu : js_updateContainer inv n pullOk inspectId with
    | mk r0 e0 => cases r0 <;> rfl
  · intro wc hfindw hlab
    have hupd : js_updateContainer inv n pullOk inspectId
        = (.error ("Container " ++ n ++ " does not have auto-update label"), []) := by
      unfold js_updateContainer
      simp only [hfindw]
      rw [if_pos (by simp [hlab])]
    unfold webhookRoute
    rw [hupd]
  · intro res eff hupd hupdated
    unfold js_updateContainer at hupd
    rcases hf : (js_getInventoryContainers inv).find? (fun c => c.name = n) with _ | wc
    · simp only [hf] at hupd
      simp at hupd
    · simp only [hf] at hupd
      by_cases hl : (!js_hasAutoUpdateLabel wc.labels) = true
      · rw [if_pos hl] at hupd
        simp at hupd
      · rw [if_neg hl] at hupd
        by_cases hp : (!pullOk wc.image) = true
        · rw [if_pos hp] at hupd
          simp at hupd
        · rw [if_neg hp] at hupd
          rcases hi : inspectId wc.image with _ | newId
          · simp only [hi] at hupd
            simp at hupd
          · simp only [hi] at hupd
            by_cases hsame : newId = wc.imageId
            · rw [if_pos hsame] at hupd
              have h1 := congrArg Prod.fst hupd
              have h3 := Except.ok.inj h1
              rw [← h3] at hupdated
              exact absurd hupdated (by decide)
            · rw [if_neg hsame] at hupd
              have h2 : [WebEffect.pull wc.image, WebEffect.inspectImage wc.image,
                  WebEffect.runUpdateScript n] = eff := congrArg Prod.snd hupd
              rw [← h2]
              simp

theorem c9_witness :
    webhookRoute (.next "none") [sampleRecord] "app" (fun _ => true)
        (fun _ => some "id2")
      = manualUpdateRoute [sampleRecord] "app" (fun _ => true)
        (fun _ => some "id2")
    ∧ WebEffect.runUpdateScript "app" ∈
        (js_updateContainer [sampleRecord] "app" (fun _ => true)
          (fun _ => some "id2")).2 := by
  have h := c9_webhook_same_as_manual (.next "none") "none" rfl [sampleRecord]
    "app" (fun _ => true) (fun _ => some "id2")
  refine ⟨h.1, ?_⟩
  exact h.2.2 ⟨true, "Container app updated successfully", true⟩
    [.pull "img:1", .inspectImage "img:1", .runUpdateScript "app"]
    rfl rfl

/-- C10 The webhook middleware admits a request carrying no credential
at all with method `none`, and rejects with 401 exactly when the
highest-precedence credential the request presents (Bearer JWT, then
webhook token, then signature) fails its verification. -/
theorem c10_auth (req : WebhookRequest) (jwtSecret webhookSecret : String)
    (jwtValid : String → String → Bool)
    (hmacHex : String → String → String → String) :
    (bearerOf req = none → presentHeader req.xWebhookToken = none →
      sigOf req = none →
      authenticateWebhook req jwtSecret webhookSecret jwtValid hmacHex
        = .next "none")
    ∧ ((∃ msg, authenticateWebhook req jwtSecret webhookSecret jwtValid hmacHex
          = .reject401 msg)
        ↔ (∃ t, bearerOf req = some t ∧ jwtValid jwtSecret t = false)
          ∨ (bearerOf req = none
              ∧ ∃ tk, presentHeader req.xWebhookToken = some tk ∧ tk ≠ webhookSecret)
          ∨ (bearerOf req = none ∧ presentHeader req.xWebhookToken = none
              ∧ ∃ sg, sigOf req = some sg
                ∧ verifySignature sg req.body webhookSecret hmacHex = false)) := by
  constructor
  · intro hb ht hs
    unfold authenticateWebhook
    simp only [hb, ht, hs]
  · constructor
    · rintro ⟨msg, hmsg⟩
      unfold authenticateWebhook at hmsg
      rcases hb : bearerOf req with _ | t
      · simp only [hb] at hmsg
        rcases ht : presentHeader req.xWebhookToken with _ | tk
        · simp only [ht] at hmsg
          rcases hs : sigOf req with _ | sg
          · simp only [hs] at hmsg
            simp at hmsg
          · simp only [hs] at hmsg
            by_cases hv : verifySignature sg req.body webhookSecret hmacHex = true
            · rw [if_pos hv] at hmsg
              simp at hmsg
            · rw [if_neg hv] at hmsg
              exact Or.inr (Or.inr ⟨rfl, rfl, sg, rfl, by simpa using hv⟩)
        · simp only [ht] at hmsg
          by_cases he : tk = webhookSecret
          · rw [if_pos he] at hmsg
            simp at hmsg
          · rw [if_neg he] at hmsg
            exact Or.inr (Or.inl ⟨rfl, tk, rfl, he⟩)
      · simp only [hb] at hmsg
        by_cases hj : jwtValid jwtSecret t = true
        · rw [if_pos hj] at hmsg
          simp at hmsg
        · rw [if_neg hj] at hmsg
          exact Or.inl ⟨t, rfl, by simpa using hj⟩
    · rintro (⟨t, hb, hj⟩ | ⟨hb, tk, ht, hne⟩ | ⟨hb, ht, sg, hs, hv⟩)
      · refine ⟨"Invalid JWT token", ?_⟩
        unfold authenticateWebhook
        simp only [hb]
        rw [if_neg (by simp [hj])]
      · refine ⟨"Invalid webhook token", ?_⟩
        unfold authenticateWebhook
        simp only [hb, ht]
        rw [if_neg hne]
      · refine ⟨"Invalid signature", ?_⟩
        unfold authenticateWebhook
        simp only [hb, ht, hs]
        rw [if_neg (by simp [hv])]

theorem c10_witness :
    authenticateWebhook reqBare "js" "ws" (fun _ _ => true) (fun _ _ _ => "h")
      = AuthResult.next "none" :=
  (c10_auth reqBare "js" "ws" (fun _ _ => true) (fun _ _ _ => "h")).1 rfl rfl rfl

end ContainerPulse
